import Mathlib

/-!
Verification of the OpenCTI graph-store layer (elasticSearch engine module).

This file gives a shallow embedding, in Lean 4, of the parts of
`opencti-platform/opencti-graphql/src/database/elasticSearch.js` that the
checked claims are about: the access filter builder
(`buildMarkingRestriction`), the relation projection codec
(`prepareRelation` / `elRebuildRelation`), the cascading deletion engine
(`getRelatedRelations`, `getRelationsToRemove`, `elDeleteInstanceIds`,
`elRemoveRelationConnection`, `elDeleteElements`), the pagination guards of
`elPaginate`, the interval guard of `elHistogramCount`, the error-recovery
branch of `elPaginate`, and the cache access filter of `loadFromCache`.

JavaScript idioms are embedded explicitly: `undefined`/`null` become
`Option`, JS `Map` objects are modelled with their two distinct storage
planes (map entries written by `.set`, object properties read by bracket
access), and truthiness is modelled where the source relies on it.
-/

namespace OpenCTI

/-! ## Configuration constants (from `config/default.json` and module-level constants) -/

/-- `elasticsearch.max_pagination_result` in `config/default.json`. -/
def ES_MAX_PAGINATION : Nat := 5000

/-- `elasticsearch.max_concurrency` in `config/default.json`. -/
def ES_MAX_CONCURRENCY : Nat := 2

/-- `const ES_RETRY_ON_CONFLICT = 5`. -/
def ES_RETRY_ON_CONFLICT : Nat := 5

/-- `export const MAX_SPLIT = 250` (max number of terms resolutions). -/
def MAX_SPLIT : Nat := 250

/-- `const MAX_JS_PARAMS = 65536`. -/
def MAX_JS_PARAMS : Nat := 65536

/-! ## Error kinds

The source module imports `ConfigurationError, DatabaseError, FunctionalError`
from `../config/errors` (that module is not under `src/`; only the
constructor names are relevant here, so each error is represented by its
kind).  The specification's error taxonomy additionally names a
`DataIntegrityError` and an `OutOfRange` error which do not occur anywhere
in the source; they are included as kinds so that claims mentioning them can
be stated and compared against what the code actually throws. -/

inductive ErrKind where
  | databaseError
  | functionalError
  | configurationError
  | dataIntegrityError
  | outOfRange
  deriving DecidableEq, Repr

/-! ## Schema constants

These constants come from `../schema/*` modules that are not under `src/`.
Modelled from the spec: only their identity matters (they are opaque field
and type names); the values below follow the schema module naming. -/

/-- `BYPASS` capability name from `../utils/access`. -/
def BYPASS : String := "BYPASS"

/-- `RELATION_OBJECT_MARKING` from `../schema/stixMetaRelationship`. -/
def RELATION_OBJECT_MARKING : String := "object-marking"

/-- `RELATION_CREATED_BY` from `../schema/stixMetaRelationship`. -/
def RELATION_CREATED_BY : String := "created-by"

/-- `RELATION_OBJECT_LABEL` from `../schema/stixMetaRelationship`. -/
def RELATION_OBJECT_LABEL : String := "object-label"

/-- `RELATION_KILL_CHAIN_PHASE` from `../schema/stixMetaRelationship`. -/
def RELATION_KILL_CHAIN_PHASE : String := "kill-chain-phase"

/-- `RELATION_INDICATES` from `../schema/stixCoreRelationship`. -/
def RELATION_INDICATES : String := "indicates"

/-- `BASE_TYPE_RELATION` from `../schema/general`. -/
def BASE_TYPE_RELATION : String := "basic-relation"

/-- `REL_INDEX_PREFIX` from `../schema/general` (the deterministic name
prefix of denormalized reference fields). -/
def REL_INDEX_PREF : String := "rel_"

/-- Modelled from the spec: `buildRefRelationKey` from `../schema/general`
(not under `src/`) — the storage key of the denormalized reference field for
a relation type (deterministic prefix + relationship type). -/
def buildRefRelationKey (t : String) : String := REL_INDEX_PREF ++ t

/-- Modelled from the spec: `buildRefRelationSearchKey` from
`../schema/general` (not under `src/`) — the searchable sub-field of the
same denormalized reference field. -/
def buildRefRelationSearchKey (t : String) : String := REL_INDEX_PREF ++ t ++ ".internal_id"

/-- `export const ROLE_FROM = 'from'`. -/
def ROLE_FROM : String := "from"

/-- `export const ROLE_TO = 'to'`. -/
def ROLE_TO : String := "to"

/-- `const UNIMPACTED_ENTITIES_ROLE = [...]`: roles whose target side is not
reference-denormalized. -/
def UNIMPACTED_ENTITIES_ROLE : List String :=
  [ RELATION_CREATED_BY ++ "_" ++ ROLE_TO,
    RELATION_OBJECT_MARKING ++ "_" ++ ROLE_TO,
    RELATION_OBJECT_LABEL ++ "_" ++ ROLE_TO,
    RELATION_KILL_CHAIN_PHASE ++ "_" ++ ROLE_TO,
    RELATION_INDICATES ++ "_" ++ ROLE_TO ]

/-- `isImpactedTypeAndSide(type, side)`: true when `${type}_${side}` is not
in the unimpacted role list. -/
def isImpactedTypeAndSide (type side : String) : Bool :=
  !(UNIMPACTED_ENTITIES_ROLE.contains (type ++ "_" ++ side))

/-! ## Users and markings -/

/-- A capability record (`user.capabilities` entries carry a `name`). -/
structure Capability where
  name : String
  deriving DecidableEq, Repr

/-- A marking definition (`definition_type` groups markings, `internal_id`
identifies them). -/
structure Marking where
  definition_type : String
  internal_id : String
  deriving DecidableEq, Repr

/-- A user as consumed by the engine module: capabilities, granted markings
and the marking universe. -/
structure User where
  capabilities : List Capability
  allowed_marking : List Marking
  all_marking : List Marking
  deriving DecidableEq, Repr

/-- `R.find((s) => s.name === BYPASS, user.capabilities || []) !== undefined`. -/
def userIsBypass (user : User) : Bool :=
  user.capabilities.any (fun s => s.name = BYPASS)

/-! ## Boolean query fragments

`buildMarkingRestriction` emits only three clause shapes: `exists`, `match`
and `bool` nodes carrying `should` (always with `minimum_should_match: 1`)
and `must_not` arms.  A document is modelled extensionally as the function
from field names to the list of values indexed under that field. -/

inductive Clause where
  | existsF (field : String)
  | matchQ (field : String) (value : String)
  | boolQ (should : List Clause) (mustNot : List Clause)

/-- Engine evaluation of a clause against a document.  A `bool` node with a
non-empty `should` list and `minimum_should_match: 1` requires one `should`
arm to hold; every `must_not` arm must fail. -/
def evalClause (doc : String → List String) : Clause → Bool
  | .existsF f => !(doc f).isEmpty
  | .matchQ f v => (doc f).contains v
  | .boolQ should mustNot =>
      (should.isEmpty || evalAny doc should) && evalNone doc mustNot
where
  evalAny (doc : String → List String) : List Clause → Bool
    | [] => false
    | c :: rest => evalClause doc c || evalAny doc rest
  evalNone (doc : String → List String) : List Clause → Bool
    | [] => true
    | c :: rest => !(evalClause doc c) && evalNone doc rest

/-- The `{ must, must_not }` output shape of `buildMarkingRestriction`. -/
structure AccessRestriction where
  must : List Clause
  must_not : List Clause

/-- A document satisfies a restriction when every `must` clause holds and
every `must_not` clause fails (the fragments are injected into the enclosing
query's `must` / `must_not` arms). -/
def satisfiesRestriction (doc : String → List String) (r : AccessRestriction) : Bool :=
  r.must.all (fun c => evalClause doc c) && r.must_not.all (fun c => !(evalClause doc c))

/-- Structural core of first-occurrence deduplication; the first argument
is a recursion budget, always called with the length of the list. -/
def dedupFirstGo {α : Type} [DecidableEq α] : Nat → List α → List α
  | 0, _ => []
  | _ + 1, [] => []
  | n + 1, k :: rest => k :: dedupFirstGo n (rest.filter (fun x => x ≠ k))

/-- First-occurrence deduplication: this is `R.uniq`, and also the
`Object.keys` order of a JS object built by insertion. -/
def dedupFirst {α : Type} [DecidableEq α] (l : List α) : List α :=
  dedupFirstGo l.length l

/-- Key order of a JS object built by insertion (`Object.keys` on the result
of `R.groupBy`): first-occurrence order of the keys. -/
def firstOccKeys (l : List String) : List String := dedupFirst l

theorem mem_dedupFirstGo {α : Type} [DecidableEq α] {x : α} :
    ∀ (n : Nat) (l : List α), l.length ≤ n → (x ∈ dedupFirstGo n l ↔ x ∈ l) := by
  intro n
  induction n with
  | zero =>
    intro l hl
    have : l = [] := List.eq_nil_of_length_eq_zero (Nat.le_zero.mp hl)
    subst this; simp [dedupFirstGo]
  | succ n ih =>
    intro l hl
    cases l with
    | nil => simp [dedupFirstGo]
    | cons k rest =>
      have hle : (rest.filter (fun x => x ≠ k)).length ≤ n :=
        Nat.le_trans (List.length_filter_le _ _)
          (Nat.le_of_succ_le_succ hl)
      rw [dedupFirstGo]
      simp only [List.mem_cons, ih _ hle, List.mem_filter, decide_eq_true_eq]
      constructor
      · rintro (h | ⟨h, _⟩)
        · exact Or.inl h
        · exact Or.inr h
      · rintro (h | h)
        · exact Or.inl h
        · by_cases hk : x = k
          · exact Or.inl hk
          · exact Or.inr ⟨h, hk⟩

theorem mem_dedupFirst {α : Type} [DecidableEq α] {x : α} :
    ∀ {l : List α}, x ∈ dedupFirst l ↔ x ∈ l := by
  intro l
  exact mem_dedupFirstGo l.length l (Nat.le_refl _)

/-- The `res` computed per marking group inside `buildMarkingRestriction`:
ids of universe markings of group `g` that are not among the user's ids for
group `g` (the "forbidden" markings of that group). -/
def forbiddenIds (user : User) (g : String) : List String :=
  let markingsForGroup :=
    (user.all_marking.filter (fun m => m.definition_type = g)).map (fun m => m.internal_id)
  let userMarkingsForGroup :=
    (user.allowed_marking.filter (fun m => m.definition_type = g)).map (fun m => m.internal_id)
  markingsForGroup.filter (fun m => !(userMarkingsForGroup.contains m))

/-- The `mustNotHaveOneOf` accumulator of `buildMarkingRestriction`: for
each marking-definition group of the universe (in `Object.keys` order), the
forbidden ids of that group, keeping only non-empty groups. -/
def mustNotHaveOneOf (user : User) : List (List String) :=
  ((firstOccKeys (user.all_marking.map (fun m => m.definition_type))).map
    (fun g => forbiddenIds user g)).filter (fun res => res.length > 0)

/-- `buildMarkingRestriction(user)` (lines 202–260 of the engine module):
bypass users get empty fragments; users with no allowed marking get a single
must-not `exists` on the marking reference field; other users get one `must`
bool clause that is satisfied either by carrying no marking reference or by
matching none of the forbidden markings of any marking-definition group. -/
def buildMarkingRestriction (user : User) : AccessRestriction :=
  let isBypass := userIsBypass user
  if isBypass then { must := [], must_not := [] }
  else if user.allowed_marking.length = 0 then
    { must := [], must_not := [Clause.existsF (buildRefRelationKey RELATION_OBJECT_MARKING)] }
  else
    let mustNotMarkingTerms := (mustNotHaveOneOf user).map (fun markings =>
      Clause.boolQ
        (markings.map (fun m =>
          Clause.matchQ (buildRefRelationSearchKey RELATION_OBJECT_MARKING) m)) [])
    let markingBool := Clause.boolQ
      [ Clause.boolQ [] [Clause.existsF (buildRefRelationSearchKey RELATION_OBJECT_MARKING)],
        Clause.boolQ [] mustNotMarkingTerms ] []
    { must := [markingBool], must_not := [] }

/-- Spec-level forbidden marking: a marking id of the universe that the
user does not hold within its own marking-definition group. -/
def ForbiddenMarking (user : User) (m : String) : Prop :=
  ∃ a ∈ user.all_marking, a.internal_id = m ∧
    ∀ b ∈ user.allowed_marking, b.definition_type = a.definition_type → b.internal_id ≠ m

theorem mem_firstOccKeys {x : String} {l : List String} :
    x ∈ firstOccKeys l ↔ x ∈ l := mem_dedupFirst

theorem evalNone_eq_all (doc : String → List String) (l : List Clause) :
    evalClause.evalNone doc l = l.all (fun c => !(evalClause doc c)) := by
  induction l with
  | nil => rfl
  | cons c rest ih => simp [evalClause.evalNone, ih]

theorem evalAny_eq_any (doc : String → List String) (l : List Clause) :
    evalClause.evalAny doc l = l.any (fun c => evalClause doc c) := by
  induction l with
  | nil => rfl
  | cons c rest ih => simp [evalClause.evalAny, ih]

theorem eval_matchTerm_false_iff (doc : String → List String) (sk : String)
    (ms : List String) (hne : ms ≠ []) :
    (evalClause doc (Clause.boolQ (ms.map (fun m => Clause.matchQ sk m)) []) = false) ↔
      ∀ m ∈ ms, m ∉ doc sk := by
  simp [evalClause, evalClause.evalAny, evalClause.evalNone, evalAny_eq_any,
    List.any_map, Function.comp_def, hne]

/-- Membership in the per-group forbidden lists is exactly the spec-level
forbidden-marking predicate. -/
theorem mem_forbiddenIds_iff (user : User) (m : String) :
    (∃ g, m ∈ forbiddenIds user g) ↔ ForbiddenMarking user m := by
  simp only [forbiddenIds, ForbiddenMarking, List.mem_filter, List.mem_map,
    Bool.not_eq_true', decide_eq_true_eq]
  constructor
  · rintro ⟨g, ⟨a, ⟨ha, hag⟩, ham⟩, hnot⟩
    refine ⟨a, ha, ham, fun b hb hbd hbm => ?_⟩
    have hnot' : m ∉ (user.allowed_marking.filter
        (fun x => decide (x.definition_type = g))).map (fun x => x.internal_id) := by
      simpa using hnot
    exact hnot' (List.mem_map.mpr
      ⟨b, List.mem_filter.mpr ⟨hb, by simp [hbd, hag]⟩, hbm⟩)
  · rintro ⟨a, ha, ham, hnone⟩
    refine ⟨a.definition_type, ⟨a, ⟨ha, rfl⟩, ham⟩, ?_⟩
    have : m ∉ (user.allowed_marking.filter
        (fun x => decide (x.definition_type = a.definition_type))).map
          (fun x => x.internal_id) := by
      intro hmem
      obtain ⟨b, hbf, hbm⟩ := List.mem_map.mp hmem
      obtain ⟨hb, hbd⟩ := List.mem_filter.mp hbf
      exact hnone b hb (of_decide_eq_true hbd) hbm
    simpa using this

/-- C1: the access filter builder returns empty fragments for bypass users;
a single must-not-exist clause when the user holds no markings; and
otherwise fragments that make a document visible exactly when it carries no
marking reference or matches no forbidden marking of any
marking-definition group. -/
theorem claim_C1_marking_restriction (user : User) (doc : String → List String) :
    (userIsBypass user = true → buildMarkingRestriction user = ⟨[], []⟩)
    ∧ (userIsBypass user = false → user.allowed_marking = [] →
        buildMarkingRestriction user =
          ⟨[], [Clause.existsF (buildRefRelationKey RELATION_OBJECT_MARKING)]⟩)
    ∧ (userIsBypass user = false → user.allowed_marking ≠ [] →
        (satisfiesRestriction doc (buildMarkingRestriction user) = true ↔
          (doc (buildRefRelationSearchKey RELATION_OBJECT_MARKING) = [] ∨
           ∀ m, ForbiddenMarking user m →
             m ∉ doc (buildRefRelationSearchKey RELATION_OBJECT_MARKING)))) := by
  refine ⟨?_, ?_, ?_⟩
  · intro hb
    simp [buildMarkingRestriction, hb]
  · intro hb he
    simp [buildMarkingRestriction, hb, he]
  · intro hb hne
    have hlen : ¬(user.allowed_marking.length = 0) := by
      simpa [List.length_eq_zero] using hne
    have hred : satisfiesRestriction doc (buildMarkingRestriction user) = true ↔
        (doc (buildRefRelationSearchKey RELATION_OBJECT_MARKING) = [] ∨
          ∀ ms ∈ mustNotHaveOneOf user, ∀ m ∈ ms,
            m ∉ doc (buildRefRelationSearchKey RELATION_OBJECT_MARKING)) := by
      simp only [buildMarkingRestriction, hb, Bool.false_eq_true, if_false, hlen,
        satisfiesRestriction, List.all_cons, List.all_nil, Bool.and_true,
        evalClause, evalClause.evalAny, evalClause.evalNone,
        evalNone_eq_all, evalAny_eq_any]
      simp
      refine or_congr Iff.rfl ?_
      constructor
      · intro h ms hms m hm hmd
        have hterm := h ms hms
        have hne2 : ms ≠ [] := by
          obtain ⟨-, hlen2⟩ := List.mem_filter.mp hms
          exact List.ne_nil_of_length_pos (by simpa using hlen2)
        rw [eval_matchTerm_false_iff doc _ ms hne2] at hterm
        exact hterm m hm hmd
      · intro h ms hms
        have hne2 : ms ≠ [] := by
          obtain ⟨-, hlen2⟩ := List.mem_filter.mp hms
          exact List.ne_nil_of_length_pos (by simpa using hlen2)
        rw [eval_matchTerm_false_iff doc _ ms hne2]
        exact h ms hms
    rw [hred]
    have hmem : ∀ m : String, (∃ ms ∈ mustNotHaveOneOf user, m ∈ ms) ↔
        ForbiddenMarking user m := by
      intro m
      rw [← mem_forbiddenIds_iff]
      constructor
      · rintro ⟨ms, hms, hm⟩
        obtain ⟨hmap, _⟩ := List.mem_filter.mp hms
        obtain ⟨g, _, rfl⟩ := List.mem_map.mp hmap
        exact ⟨g, hm⟩
      · rintro ⟨g, hm⟩
        refine ⟨forbiddenIds user g, List.mem_filter.mpr ⟨List.mem_map.mpr
          ⟨g, ?_, rfl⟩, ?_⟩, hm⟩
        · rw [mem_firstOccKeys]
          obtain ⟨a, haf, _⟩ := List.mem_map.mp (List.mem_filter.mp hm).1
          obtain ⟨ha, hag⟩ := List.mem_filter.mp haf
          exact List.mem_map.mpr ⟨a, ha, of_decide_eq_true hag⟩
        · exact decide_eq_true (List.length_pos.mpr (List.ne_nil_of_mem hm))
    refine or_congr Iff.rfl ?_
    constructor
    · intro h m hf hmd
      obtain ⟨ms, hms, hm⟩ := (hmem m).mpr hf
      exact h ms hms m hm hmd
    · intro h ms hms m hm hmd
      exact h m ((hmem m).mp ⟨ms, hms, hm⟩) hmd

/-- Concrete non-bypass user holding one of two TLP markings, for the C1
witness. -/
def userW : User :=
  { capabilities := [],
    allowed_marking := [⟨"TLP", "marking-tlp-green"⟩],
    all_marking := [⟨"TLP", "marking-tlp-green"⟩, ⟨"TLP", "marking-tlp-red"⟩] }

/-- Unmarked document for the C1 witness. -/
def docW : String → List String := fun _ => []

/-- C1 witness: at a concrete non-bypass user with markings, an unmarked
document satisfies the built restriction. -/
theorem claim_C1_marking_restriction_witness :
    satisfiesRestriction docW (buildMarkingRestriction userW) = true :=
  ((claim_C1_marking_restriction userW docW).2.2 rfl (by decide)).mpr (Or.inl rfl)

/-! ## Relation projection codec (`prepareRelation` / `elRebuildRelation`)

`getParentTypes` and `convertEntityTypeToStixType` live in
`../schema/schemaUtils` (not under `src/`); the codec is parametric in them
since its behaviour does not depend on their values. -/

/-- A resolved endpoint object (`thing.from` / `thing.to`). -/
structure EndpointRec where
  internal_id : String
  name : String
  entity_type : String
  deriving DecidableEq, Repr

/-- The relationship object handed to `prepareRelation`: `fromRole`/`toRole`
may be `undefined` and `from`/`to` may be unresolved (both modelled as
`none`).  Attributes not read by the codec are omitted. -/
structure RelInput where
  internal_id : String
  base_type : String
  entity_type : String
  fromRole : Option String
  toRole : Option String
  fromEnd : Option EndpointRec
  toEnd : Option EndpointRec
  fromId : Option String
  toId : Option String
  deriving DecidableEq, Repr

/-- An embedded connection record `{internal_id, name, types, role}`. -/
structure Connection where
  internal_id : String
  name : String
  types : List String
  role : String
  deriving DecidableEq, Repr

/-- The stored (encoded) relationship document: the `from*`/`to*` fields are
stripped and the two connections carry the endpoint data. -/
structure StoredRelation where
  internal_id : String
  base_type : String
  entity_type : String
  connections : List Connection
  deriving DecidableEq, Repr

/-- `prepareRelation(thing)` (lines 1743–1780): checks
`fromRole === undefined || toRole === undefined`, then `!from || !to`, then
builds the two connection records (types = entity type followed by its
parent lineage) and drops the `from*`/`to*` fields.  Both failure paths
throw `DatabaseError`. -/
def prepareRelation (getParentTypes : String → List String) (thing : RelInput) :
    Except ErrKind StoredRelation :=
  match thing.fromRole, thing.toRole with
  | some fromRole, some toRole =>
    match thing.fromEnd, thing.toEnd with
    | some f, some t =>
      .ok { internal_id := thing.internal_id
            base_type := thing.base_type
            entity_type := thing.entity_type
            connections :=
              [ { internal_id := f.internal_id, name := f.name,
                  types := f.entity_type :: getParentTypes f.entity_type,
                  role := fromRole },
                { internal_id := t.internal_id, name := t.name,
                  types := t.entity_type :: getParentTypes t.entity_type,
                  role := toRole } ] }
    | _, _ => .error .databaseError
  | _, _ => .error .databaseError

/-- A decoded relationship: the directional shape rebuilt by
`elRebuildRelation` (after `R.dissoc('connections')`). -/
structure RebuiltRelation where
  internal_id : String
  base_type : String
  entity_type : String
  fromId : String
  fromRole : String
  fromType : Option String
  source_ref : String
  toId : String
  toRole : String
  toType : Option String
  target_ref : String
  relationship_type : String
  deriving DecidableEq, Repr

/-- Result of `elRebuildRelation`: relation concepts are decoded, anything
else is returned unchanged. -/
inductive RebuildResult where
  | relation (r : RebuiltRelation)
  | entity (c : StoredRelation)
  deriving DecidableEq, Repr

/-- `elMergeRelation` (lines 691–700): fails with `DatabaseError` when a
connection is absent, otherwise merges the `elBuildRelation('from', ...)`
and `elBuildRelation('to', ...)` projections (`fromType`/`toType` are
`R.head(connection.types)`, `source_ref`/`target_ref` are derived through
`convertEntityTypeToStixType`). -/
def elMergeRelation (cets : Option String → String) (concept : StoredRelation)
    (fromConnection toConnection : Option Connection) : Except ErrKind RebuiltRelation :=
  match fromConnection, toConnection with
  | some fc, some tc =>
    .ok { internal_id := concept.internal_id
          base_type := concept.base_type
          entity_type := concept.entity_type
          fromId := fc.internal_id
          fromRole := fc.role
          fromType := fc.types.head?
          source_ref := cets fc.types.head? ++ "--temporary"
          toId := tc.internal_id
          toRole := tc.role
          toType := tc.types.head?
          target_ref := cets tc.types.head? ++ "--temporary"
          relationship_type := concept.entity_type }
  | _, _ => .error .databaseError

/-- `elRebuildRelation(concept)` (lines 701–712): for `base_type` relation,
finds the connections whose roles are `{entity_type}_from` and
`{entity_type}_to`, merges them and sets `relationship_type` to
`entity_type`; other concepts pass through unchanged. -/
def elRebuildRelation (cets : Option String → String) (concept : StoredRelation) :
    Except ErrKind RebuildResult :=
  if concept.base_type = BASE_TYPE_RELATION then
    let fromConnection :=
      concept.connections.find? (fun c => c.role = concept.entity_type ++ "_from")
    let toConnection :=
      concept.connections.find? (fun c => c.role = concept.entity_type ++ "_to")
    (elMergeRelation cets concept fromConnection toConnection).map .relation
  else
    .ok (.entity concept)

theorem string_append_from_ne_to (s : String) : s ++ "_from" ≠ s ++ "_to" := by
  intro h
  have hd := congrArg String.data h
  rw [String.data_append, String.data_append] at hd
  have := List.append_cancel_left hd
  simp [String.data] at this

deriving instance DecidableEq for Except

/-- Parent-type lineage used in C2 witnesses. -/
def gptW : String → List String := fun _ => ["basic-object"]

/-- Entity-to-stix-type conversion used in C2 witnesses. -/
def cetsW : Option String → String := fun o => o.getD "unknown"

/-- A well-formed relationship whose roles follow the
`{entity_type}_from` / `{entity_type}_to` pattern. -/
def relW : RelInput :=
  { internal_id := "rel-1", base_type := BASE_TYPE_RELATION, entity_type := "uses",
    fromRole := some "uses_from", toRole := some "uses_to",
    fromEnd := some ⟨"ent-f", "F", "Malware"⟩, toEnd := some ⟨"ent-t", "T", "Tool"⟩,
    fromId := some "ent-f", toId := some "ent-t" }

/-- A relationship whose roles are set but do not follow the
`{entity_type}_from` pattern expected by the decoder. -/
def relBadRole : RelInput :=
  { relW with fromRole := some "located-at_from" }

/-- A relationship with both roles set but an unresolved `from` endpoint. -/
def relMissingFrom : RelInput :=
  { relW with fromEnd := none }

/-- C2 counterexample: with both roles set (but one not of the
`{entity_type}_from` shape) decoding the encoded document fails instead of
reconstructing the fields, and encoding with a null endpoint fails with
`DatabaseError`, not the `DataIntegrityError` the claim names. -/
theorem claim_C2_codec_counterexample :
    ((prepareRelation gptW relBadRole).bind (elRebuildRelation cetsW) =
        .error .databaseError)
    ∧ prepareRelation gptW relMissingFrom = .error .databaseError
    ∧ prepareRelation gptW relMissingFrom ≠ .error .dataIntegrityError := by
  refine ⟨by decide, by decide, by decide⟩

/-- C2 (amended): for a relationship with resolved endpoints, matching ids,
and roles equal to `{entity_type}_from` / `{entity_type}_to` (as the write
path sets them), decode ∘ encode reconstructs the `from*`/`to*` fields and
sets `relationship_type` to `entity_type`; encoding any relationship whose
`from` or `to` endpoint is unresolved fails with `DatabaseError`. -/
theorem claim_C2_codec_roundtrip (gpt : String → List String)
    (cets : Option String → String) (thing : RelInput) (f t : EndpointRec)
    (hbase : thing.base_type = BASE_TYPE_RELATION)
    (hf : thing.fromEnd = some f) (ht : thing.toEnd = some t)
    (hfr : thing.fromRole = some (thing.entity_type ++ "_from"))
    (htr : thing.toRole = some (thing.entity_type ++ "_to"))
    (hfi : thing.fromId = some f.internal_id) (hti : thing.toId = some t.internal_id) :
    ((prepareRelation gpt thing).bind (elRebuildRelation cets) =
      .ok (.relation
        { internal_id := thing.internal_id
          base_type := thing.base_type
          entity_type := thing.entity_type
          fromId := f.internal_id
          fromRole := thing.entity_type ++ "_from"
          fromType := some f.entity_type
          source_ref := cets (some f.entity_type) ++ "--temporary"
          toId := t.internal_id
          toRole := thing.entity_type ++ "_to"
          toType := some t.entity_type
          target_ref := cets (some t.entity_type) ++ "--temporary"
          relationship_type := thing.entity_type }))
    ∧ (∀ th2 : RelInput, th2.fromRole ≠ none → th2.toRole ≠ none →
        (th2.fromEnd = none ∨ th2.toEnd = none) →
        prepareRelation gpt th2 = .error .databaseError) := by
  constructor
  · simp only [prepareRelation, hfr, htr, hf, ht, Except.bind]
    rw [elRebuildRelation]
    simp only [hbase, if_pos rfl]
    rw [List.find?_cons_of_pos _ (by simp),
      List.find?_cons_of_neg _ (by simp [string_append_from_ne_to]),
      List.find?_cons_of_pos _ (by simp)]
    simp [elMergeRelation, Except.map]
  · intro th2 h1 h2 h3
    obtain ⟨fr, hfr2⟩ := Option.ne_none_iff_exists'.mp h1
    obtain ⟨tr, htr2⟩ := Option.ne_none_iff_exists'.mp h2
    rcases h3 with hend | hend <;>
      · cases hto : th2.toEnd <;> cases hfrom : th2.fromEnd <;>
          simp_all [prepareRelation]

/-- C2 witness: the amended round-trip theorem applied to the concrete
relationship `relW`. -/
theorem claim_C2_codec_roundtrip_witness :
    ((prepareRelation gptW relW).bind (elRebuildRelation cetsW) =
      .ok (.relation
        { internal_id := relW.internal_id
          base_type := relW.base_type
          entity_type := relW.entity_type
          fromId := "ent-f"
          fromRole := relW.entity_type ++ "_from"
          fromType := some "Malware"
          source_ref := cetsW (some "Malware") ++ "--temporary"
          toId := "ent-t"
          toRole := relW.entity_type ++ "_to"
          toType := some "Tool"
          target_ref := cetsW (some "Tool") ++ "--temporary"
          relationship_type := relW.entity_type }))
    ∧ (∀ th2 : RelInput, th2.fromRole ≠ none → th2.toRole ≠ none →
        (th2.fromEnd = none ∨ th2.toEnd = none) →
        prepareRelation gptW th2 = .error .databaseError) :=
  claim_C2_codec_roundtrip gptW cetsW relW ⟨"ent-f", "F", "Malware"⟩
    ⟨"ent-t", "T", "Tool"⟩ rfl rfl rfl (by decide) (by decide) rfl rfl

/-! ## `elPaginate` page-size handling (lines 1195 and 1385–1402)

`const { first = 200, ... } = options` applies the default only when
`options.first` is `undefined`; `const querySize = first || 10` then maps
the falsy values `null` and `0` to 10.  The guard
`if (querySize > ES_MAX_PAGINATION) throw DatabaseError(...)` runs before
`el.search(query)` is invoked, so on the error path no query value is ever
produced. -/

/-- A JS optional number: `undefined` (key absent), `null`, or a value. -/
inductive JsNum where
  | undef
  | null
  | val (n : Nat)
  deriving DecidableEq, Repr

/-- The destructuring `const { first = 200 } = options`: the default fires
only on `undefined`. -/
def destructuredFirst (firstOpt : JsNum) : JsNum :=
  match firstOpt with
  | .undef => .val 200
  | x => x

/-- `const querySize = first || 10`: JS falsy (`null`, `0`) becomes 10. -/
def querySizeOf (firstOpt : JsNum) : Nat :=
  match destructuredFirst firstOpt with
  | .val n => if n = 0 then 10 else n
  | _ => 10

/-- The size-relevant slice of `elPaginate`: computes the query size and
applies the max-pagination guard; a successful result is the size the
search body is issued with (`body.size`). -/
def elPaginateQueryPlan (firstOpt : JsNum) : Except ErrKind Nat :=
  let querySize := querySizeOf firstOpt
  if querySize > ES_MAX_PAGINATION then .error .databaseError
  else .ok querySize

/-- C6 counterexample: asking for `ES_MAX_PAGINATION + 1` results fails, but
with `DatabaseError`, not the `OutOfRange` error named by the claim. -/
theorem claim_C6_max_pagination_counterexample :
    elPaginateQueryPlan (.val (ES_MAX_PAGINATION + 1)) = .error .databaseError
    ∧ elPaginateQueryPlan (.val (ES_MAX_PAGINATION + 1)) ≠ .error .outOfRange := by
  refine ⟨by decide, by decide⟩

/-- C6 (amended): a requested page size above the configured maximum fails
with `DatabaseError` (the only error raised on this path) and no search is
issued — the plan never produces a query size. -/
theorem claim_C6_max_pagination_guard (n : Nat) (h : n > ES_MAX_PAGINATION) :
    elPaginateQueryPlan (.val n) = .error .databaseError := by
  have hn : ¬(n = 0) := by omega
  simp [elPaginateQueryPlan, querySizeOf, destructuredFirst, hn, h]

/-- C6 witness: the guard theorem applied at 5001. -/
theorem claim_C6_max_pagination_guard_witness :
    elPaginateQueryPlan (.val 5001) = .error .databaseError :=
  claim_C6_max_pagination_guard 5001 (by decide)

/-- C10: the default page size 200 is used only when `first` is omitted;
an explicit `null` or `0` yields a search of size 10. -/
theorem claim_C10_first_default :
    elPaginateQueryPlan .undef = .ok 200
    ∧ elPaginateQueryPlan .null = .ok 10
    ∧ elPaginateQueryPlan (.val 0) = .ok 10 := by
  refine ⟨by decide, by decide, by decide⟩

/-! ## `elHistogramCount` interval guard (lines 1066–1186)

The query body is represented structurally: each constructor mirrors one
JSON subtree the function builds.  The date-format switch runs before
`el.search`; on an unsupported interval the function throws
`FunctionalError` and no query value is ever produced. -/

/-- One entry of the `filters` argument of `elHistogramCount`. -/
structure HistFilter where
  isRelation : Bool
  isNested : Bool
  type : String
  value : String
  operator : String
  deriving DecidableEq, Repr

/-- A clause of the histogram query body (mirrors the JSON subtrees built
by `elHistogramCount`). -/
inductive HistClause where
  /-- `{ range: { [field]: { gte: start, lte: end } } }`. -/
  | rangeC (field : String) (gte lte : String)
  /-- `{ bool: { should: [match_phrase entity_type, match_phrase
  parent_types], minimum_should_match: 1 } }`. -/
  | typeShould (type : String)
  /-- `{ nested: { path: connections, query: bool should (match_phrase
  connections.types searched over toTypes), minimum_should_match: 1 } }`. -/
  | connectionsTypes (types : List String)
  /-- `{ nested: { path, query: { bool: { must: [match_phrase] } } } }`
  built for a nested filter. -/
  | nestedMustPhrase (path : String) (field : String) (value : String)
  /-- `{ multi_match: { fields: [key], type: phrase, query: value } }`. -/
  | multiMatch (fields : List String) (mtype : String) (query : String)
  /-- A marking-restriction fragment pushed from
  `buildMarkingRestriction`. -/
  | marking (c : Clause)

/-- Conversion of one histogram filter (the `R.map` at the top of
`elHistogramCount`): nested filters become nested-must-phrase queries;
otherwise a `multi_match` on `type.keyword` (plain `type` for the
`wilcard` operator (sic), a ref-relation search key for relation
filters). -/
def histogramFilterClause (f : HistFilter) : HistClause :=
  if f.isNested then
    .nestedMustPhrase ((f.type.splitOn ".").headD "") f.type f.value
  else
    let key := f.type ++ ".keyword"
    let key := if f.operator = "wilcard" then f.type else key
    let key := if f.isRelation
      then buildRefRelationSearchKey (if f.type = "" then "*" else f.type)
      else key
    .multiMatch [key] "phrase" f.value

/-- The built histogram query (the parts of the search body that the
claims observe). -/
structure HistQuery where
  dateFormat : String
  calendarInterval : String
  aggField : String
  must : List HistClause
  must_not : List Clause

/-- The `switch (interval)` of `elHistogramCount`: `year`/`month`/`day`
select a date format, anything else reaches the `default` branch (which
throws `FunctionalError`). -/
def histogramDateFormat (interval : String) : Option String :=
  if interval = "year" then some "yyyy"
  else if interval = "month" then some "yyyy-MM"
  else if interval = "day" then some "yyyy-MM-dd"
  else none

/-- `elHistogramCount(user, type, field, interval, start, end, toTypes,
filters)`: the interval switch selects a date format or throws
`FunctionalError`; the query is then assembled from the range filter, the
optional type filter, the optional connection-type filter, the converted
histogram filters and the marking restriction. -/
def elHistogramCount (user : User) (type : Option String) (field : String)
    (interval : String) (start finish : String) (toTypes : List String)
    (filters : List HistFilter) : Except ErrKind HistQuery :=
  let histogramFilters := filters.map histogramFilterClause
  match histogramDateFormat interval with
  | none => .error .functionalError
  | some dateFormat =>
    let baseFilters : List HistClause := [.rangeC field start finish]
    let baseFilters := baseFilters ++ (match type with
      | some t => [HistClause.typeShould t]
      | none => [])
    let baseFilters := baseFilters ++
      (if toTypes.length > 0 then [HistClause.connectionsTypes toTypes] else [])
    let markingRestrictions := buildMarkingRestriction user
    let must := baseFilters ++ histogramFilters ++
      markingRestrictions.must.map HistClause.marking
    .ok { dateFormat := dateFormat, calendarInterval := interval,
          aggField := field, must := must,
          must_not := markingRestrictions.must_not }

/-- C7: an interval outside `{year, month, day}` fails with
`FunctionalError` before any engine call (no query is produced), and a
supported interval never triggers that error — a query is produced. -/
theorem claim_C7_histogram_interval (user : User) (type : Option String)
    (field interval start finish : String) (toTypes : List String)
    (filters : List HistFilter) :
    (interval ∉ ["year", "month", "day"] →
      elHistogramCount user type field interval start finish toTypes filters =
        .error .functionalError)
    ∧ (interval ∈ ["year", "month", "day"] →
      (elHistogramCount user type field interval start finish toTypes filters).isOk
        = true) := by
  constructor
  · intro h
    have h1 : ¬(interval = "year") := fun hc => h (by simp [hc])
    have h2 : ¬(interval = "month") := fun hc => h (by simp [hc])
    have h3 : ¬(interval = "day") := fun hc => h (by simp [hc])
    simp [elHistogramCount, histogramDateFormat, h1, h2, h3]
  · intro h
    simp only [List.mem_cons, List.not_mem_nil, or_false] at h
    rcases h with hc | hc | hc <;> subst hc <;>
      simp [elHistogramCount, histogramDateFormat, Except.isOk, Except.toBool]

/-- C7 witness: the guard theorem applied at the unsupported interval
`week` and the supported interval `day`. -/
theorem claim_C7_histogram_interval_witness :
    elHistogramCount userW none "created_at" "week" "2020" "2021" [] [] =
      .error .functionalError
    ∧ (elHistogramCount userW none "created_at" "day" "2020" "2021" [] []).isOk
        = true :=
  ⟨(claim_C7_histogram_interval userW none "created_at" "week" "2020" "2021"
      [] []).1 (by decide),
   (claim_C7_histogram_interval userW none "created_at" "day" "2020" "2021"
      [] []).2 (by decide)⟩

/-! ## `elPaginate` error recovery (lines 1421–1438)

On a search failure the catch block counts the root causes of the engine
error and the subset whose reason contains `No mapping found for` or
`no such index`; only when every root cause is such a missing-index /
missing-mapping condition is the error swallowed (an empty page for
connection format, an empty list otherwise); otherwise it is logged and the
very same error is re-thrown. -/

/-- Substring search on character lists: the needle is a prefix of some
suffix of the haystack. -/
def charsInfixOf : List Char → List Char → Bool
  | needle, [] => needle.isEmpty
  | needle, hay@(_ :: t) => needle.isPrefixOf hay || charsInfixOf needle t

/-- `R.includes(needle, hay)` on strings: substring containment. -/
def jsIncludes (needle hay : String) : Bool :=
  charsInfixOf needle.toList hay.toList

/-- The reason filter of the catch block. -/
def isMappingCause (reason : String) : Bool :=
  jsIncludes "No mapping found for" reason || jsIncludes "no such index" reason

/-- An engine error as inspected by the catch block: the list of root-cause
reasons (`err.meta.body.error.root_cause[*].reason`). -/
structure EsError where
  rootCauses : List String
  deriving DecidableEq, Repr

/-- Outcome of the catch block: a swallowed error yielding an empty result
(`buildPagination(0, null, [], 0)` in connection format, `[]` otherwise), or
the original error logged and re-thrown unchanged. -/
inductive PaginateRecovery where
  | emptyResult (connectionFormat : Bool)
  | rethrown (err : EsError) (logged : Bool)
  deriving DecidableEq, Repr

/-- The catch block of `elPaginate`. -/
def elPaginateCatch (connectionFormat : Bool) (err : EsError) : PaginateRecovery :=
  let numberOfCauses := err.rootCauses.length
  let invalidMappingCauses := err.rootCauses.filter isMappingCause
  if numberOfCauses > invalidMappingCauses.length then .rethrown err true
  else .emptyResult connectionFormat

/-- C8: a failed search is swallowed into an empty result exactly when
every root cause is a missing-index/missing-mapping condition; otherwise
the same error is logged and re-raised unchanged. -/
theorem claim_C8_paginate_error_recovery (connectionFormat : Bool) (err : EsError) :
    (elPaginateCatch connectionFormat err = .emptyResult connectionFormat ↔
      ∀ r ∈ err.rootCauses, isMappingCause r = true)
    ∧ (elPaginateCatch connectionFormat err = .rethrown err true ↔
      ¬ ∀ r ∈ err.rootCauses, isMappingCause r = true) := by
  have hle : (err.rootCauses.filter isMappingCause).length ≤ err.rootCauses.length :=
    List.length_filter_le _ _
  have key : (err.rootCauses.length > (err.rootCauses.filter isMappingCause).length)
      ↔ ¬ ∀ r ∈ err.rootCauses, isMappingCause r = true := by
    constructor
    · intro hgt hall
      rw [List.filter_length_eq_length.mpr hall] at hgt
      exact lt_irrefl _ hgt
    · intro hnall
      rcases Nat.lt_or_ge (err.rootCauses.filter isMappingCause).length
        err.rootCauses.length with h | h
      · exact h
      · exact absurd (List.filter_length_eq_length.mp (le_antisymm hle h)) hnall
  by_cases hgt : err.rootCauses.length > (err.rootCauses.filter isMappingCause).length
  · have hres : elPaginateCatch connectionFormat err = .rethrown err true := by
      simp only [elPaginateCatch]
      rw [if_pos hgt]
    rw [hres]
    refine ⟨⟨fun h => PaginateRecovery.noConfusion h, fun hall => absurd hall (key.mp hgt)⟩,
      ⟨fun _ => key.mp hgt, fun _ => rfl⟩⟩
  · have hres : elPaginateCatch connectionFormat err = .emptyResult connectionFormat := by
      simp only [elPaginateCatch]
      rw [if_neg hgt]
    rw [hres]
    refine ⟨⟨fun _ => ?_, fun _ => rfl⟩,
      ⟨fun h => PaginateRecovery.noConfusion h, fun hnall => absurd (key.mpr hnall) hgt⟩⟩
    by_contra hnall
    exact hgt (key.mpr hnall)

/-! ## `loadFromCache` access filter (lines 813–836)

On the cache path of `elFindByIds`, each cached instance passes through the
`accessible` filter: non-bypass users see an instance only if its
`object_marking_refs` are empty or every one of them is among the user's
`allowed_marking` ids; a type check then applies.  Unlike
`buildMarkingRestriction` there is no per-marking-group treatment. -/

/-- A cached instance as inspected by the `accessible` filter. -/
structure CachedInstance where
  internal_id : String
  entity_type : String
  object_marking_refs : List String
  deriving DecidableEq, Repr

/-- The per-instance predicate of the `R.filter` in `loadFromCache`
(`getParentTypes` comes from the schema module and is a parameter). -/
def cacheAccessAllowed (gpt : String → List String) (user : User)
    (type : Option String) (instance_ : CachedInstance) : Bool :=
  let isBypass := userIsBypass user
  let markingOk :=
    if !isBypass then
      let dataMarkings := instance_.object_marking_refs
      let userMarkings := user.allowed_marking.map (fun a => a.internal_id)
      dataMarkings.isEmpty || dataMarkings.all (fun m => userMarkings.contains m)
    else true
  if !markingOk then false
  else
    let dataTypes := instance_.entity_type :: gpt instance_.entity_type
    !(match type with
      | some t => !(dataTypes.contains t)
      | none => false)

/-- The `accessible` output of `loadFromCache`: the cached instances that
pass the filter. -/
def loadFromCacheAccessible (gpt : String → List String) (user : User)
    (type : Option String) (data : List CachedInstance) : List CachedInstance :=
  data.filter (cacheAccessAllowed gpt user type)

/-- C9: for a non-bypass user, a cached element with a non-empty marking
list survives the cache filter only if every one of its marking ids is
among the user's allowed markings, and an element carrying any marking the
user does not hold is filtered out — with no per-group exception. -/
theorem claim_C9_cache_marking_filter (gpt : String → List String) (user : User)
    (type : Option String) (data : List CachedInstance) (inst : CachedInstance)
    (hb : userIsBypass user = false) :
    (inst ∈ loadFromCacheAccessible gpt user type data →
      inst.object_marking_refs ≠ [] →
      ∀ m ∈ inst.object_marking_refs,
        m ∈ user.allowed_marking.map (fun a => a.internal_id))
    ∧ ((∃ m ∈ inst.object_marking_refs,
          m ∉ user.allowed_marking.map (fun a => a.internal_id)) →
        inst ∉ loadFromCacheAccessible gpt user type data) := by
  have hkey : cacheAccessAllowed gpt user type inst = true →
      ∀ m ∈ inst.object_marking_refs,
        m ∈ user.allowed_marking.map (fun a => a.internal_id) := by
    intro hacc m hm
    simp only [cacheAccessAllowed, hb] at hacc
    rcases hmk : (inst.object_marking_refs.isEmpty ||
        inst.object_marking_refs.all
          (fun x => (user.allowed_marking.map (fun a => a.internal_id)).contains x))
      with _ | _
    · rw [hmk] at hacc
      simp at hacc
    · rcases Bool.or_eq_true_iff.mp hmk with hemp | hall
      · exact absurd (List.isEmpty_iff.mp hemp) (List.ne_nil_of_mem hm)
      · simpa using List.all_eq_true.mp hall m hm
  constructor
  · intro hmem _ m hm
    exact hkey (List.mem_filter.mp hmem).2 m hm
  · rintro ⟨m, hm, hnot⟩ hmem
    exact hnot (hkey (List.mem_filter.mp hmem).2 m hm)

/-- A cached instance carrying a marking `userW` does not hold. -/
def instW : CachedInstance := ⟨"e1", "Report", ["marking-tlp-red"]⟩

/-- C9 witness: the cache filter drops `instW` for the concrete non-bypass
user `userW`. -/
theorem claim_C9_cache_marking_filter_witness :
    instW ∉ loadFromCacheAccessible gptW userW none [instW] :=
  (claim_C9_cache_marking_filter gptW userW none [instW] instW rfl).2
    ⟨"marking-tlp-red", by decide, by decide⟩

/-! ## Cascading deletion engine (lines 1592–1725)

`getRelatedRelations` recursively discovers every relationship whose
connections reference a frontier id.  The JS uses a `Map` named `cache` as
the visited set, writing with `cache.set(id, '')` but reading with the
bracket access `cache[f]` — which reads the Map *object's own properties*,
a storage plane `Map.prototype.set` never touches.  The embedding keeps
both planes so this mixed usage is represented exactly. -/

/-- `R.splitEvery n` (chunking; every call site passes `n ≥ 1`: 250 and
65536).  Implemented with a structurally recursive worker (`acc` is the
current chunk reversed, `k` its remaining capacity). -/
def splitEveryGo (n : Nat) : List α → List α → Nat → List (List α)
  | [], acc, _ => if acc.isEmpty then [] else [acc.reverse]
  | x :: xs, acc, 0 => acc.reverse :: splitEveryGo n xs [x] (n - 1)
  | x :: xs, acc, k + 1 => splitEveryGo n xs (x :: acc) k

/-- `R.splitEvery n l` (for `n = 0`, which no call site uses, the result is
empty). -/
def splitEvery (n : Nat) (l : List α) : List (List α) :=
  if n = 0 then [] else splitEveryGo n l [] n

theorem splitEveryGo_join (n : Nat) :
    ∀ (l acc : List α) (k : Nat), (splitEveryGo n l acc k).flatten = acc.reverse ++ l := by
  intro l
  induction l with
  | nil =>
    intro acc k
    by_cases h : acc.isEmpty <;> simp_all [splitEveryGo, List.isEmpty_iff]
  | cons x xs ih =>
    intro acc k
    cases k with
    | zero => simp [splitEveryGo, ih]
    | succ k => simp [splitEveryGo, ih]

/-- Chunking only regroups: the chunks of `splitEvery` concatenate back to
the input list. -/
theorem splitEvery_join (n : Nat) (hn : n ≠ 0) (l : List α) :
    (splitEvery n l).flatten = l := by
  simp [splitEvery, hn, splitEveryGo_join]

theorem mem_splitEvery (n : Nat) (hn : n ≠ 0) (l : List α) (x : α) :
    (∃ g ∈ splitEvery n l, x ∈ g) ↔ x ∈ l := by
  rw [← splitEvery_join n hn l, List.mem_flatten]
  rw [splitEvery_join n hn l]

/-- A JS `Map` object with its two storage planes: the entry table
(`.set` / `.has`) and the object's own properties (bracket access).  No
code path here ever assigns a property, so the two planes never mix. -/
structure JsMap where
  entries : List (String × String)
  props : List (String × String)
  deriving DecidableEq, Repr

/-- The fresh `new Map()`. -/
def JsMap.empty : JsMap := ⟨[], []⟩

/-- `m.set(k, v)`: writes the entry table. -/
def JsMap.set (m : JsMap) (k v : String) : JsMap :=
  { m with entries := (k, v) :: m.entries }

/-- `m.has(k)`: reads the entry table. -/
def JsMap.hasKey (m : JsMap) (k : String) : Bool :=
  m.entries.any (fun p => p.1 = k)

/-- `m[k]`: own-property read; entries written by `.set` are invisible to
it.  (Keys here are engine ids, so `Map.prototype` members are never
shadowed or hit.) -/
def JsMap.propGet (m : JsMap) (k : String) : Option String :=
  (m.props.find? (fun p => p.1 = k)).map (fun p => p.2)

/-- JS truthiness of an optional string: `undefined` and `''` are falsy. -/
def jsTruthy : Option String → Bool
  | none => false
  | some s => if s = "" then false else true

/-- A relationship document as the traversal sees it (decoded hit): its two
connections hold exactly the endpoint ids. -/
structure GraphRelation where
  internal_id : String
  index : String
  entity_type : String
  fromId : String
  toId : String
  deriving DecidableEq, Repr

/-- The relationship universe behind the engine indices. -/
structure World where
  rels : List GraphRelation
  deriving DecidableEq, Repr

/-- Models the `elList` query of `getRelatedRelations`: every relationship
one of whose connections' `internal_id` is among `ids` (nested filter on
`connections`, type-restricted to the basic-relationship abstraction so
plain entities are excluded). -/
def relHits (w : World) (ids : List String) : List GraphRelation :=
  w.rels.filter (fun r => ids.contains r.fromId || ids.contains r.toId)

/-- One fuelled call of `getRelatedRelations(user, targetIds, elements,
level, cache)` (lines 1592–1615).  `elements` accumulates discovered
relationships tagged with their level (`unshift` prepends); per group the
ids not already truthy under `cache[f]` are re-queued and `cache.set` into
the entry table; when anything was found the groups of `MAX_SPLIT` ids
recurse at `level + 1` (the `Promise.map` fan-out is sequentialised — the
order between sibling batches is not observable in what we prove).  The
source has no fuel; fuel exhaustion models non-return. -/
def getRelatedRelationsRec (w : World) :
    Nat → List String → List (GraphRelation × Nat) → Nat → JsMap →
    Option (List (GraphRelation × Nat) × JsMap)
  | 0, _, _, _, _ => none
  | fuel + 1, targetIds, elements, level, cache =>
    let hits := relHits w targetIds
    let groupResults := splitEvery MAX_JS_PARAMS hits
    let folded := groupResults.foldl (fun acc subRels =>
      let els := (subRels.map (fun s => (s, level))) ++ acc.1
      let internalIds := subRels.map (fun g => g.internal_id)
      let resolvedIds := internalIds.filter (fun f => !(jsTruthy (acc.2.2.propGet f)))
      let cache2 := resolvedIds.foldl (fun cc id => cc.set id "") acc.2.2
      (els, acc.2.1 ++ resolvedIds, cache2)) (elements, ([], cache))
    if folded.2.1.length > 0 then
      (splitEvery MAX_SPLIT folded.2.1).foldlM
        (fun acc gIds => getRelatedRelationsRec w fuel gIds acc.1 (level + 1) acc.2)
        (folded.1, folded.2.2)
    else
      some (folded.1, folded.2.2)

/-- `getRelationsToRemove(user, elements)` (lines 1616–1622), fuelled:
starts the traversal at the elements' ids with an empty accumulator, level
0 and a fresh `Map`. -/
def getRelationsToRemove (w : World) (fuel : Nat) (ids : List String) :
    Option (List (GraphRelation × Nat) × JsMap) :=
  getRelatedRelationsRec w fuel ids [] 0 JsMap.empty

theorem JsMap.props_set (m : JsMap) (k v : String) : (m.set k v).props = m.props := rfl

theorem JsMap.props_foldl_set (l : List String) (c : JsMap) :
    (l.foldl (fun cc id => cc.set id "") c).props = c.props := by
  induction l generalizing c with
  | nil => rfl
  | cons x xs ih =>
    simp only [List.foldl_cons]
    rw [ih]
    rfl

/-- A non-trivial chunk size splits a singleton into one singleton chunk. -/
theorem splitEvery_singleton (n : Nat) (hn : n ≠ 0) (x : α) :
    splitEvery n [x] = [[x]] := by
  obtain ⟨m, rfl⟩ := Nat.exists_eq_succ_of_ne_zero hn
  simp [splitEvery, splitEveryGo]

theorem JsMap.propGet_of_props_nil (c : JsMap) (h : c.props = []) (k : String) :
    c.propGet k = none := by
  simp [JsMap.propGet, h]

/-- The cyclic pair of relationships from the spec's own example: `r1` has
the relationship `r2` as an endpoint (besides the entity `a`), and `r2` has
`r1` as an endpoint (besides the entity `b`). -/
def wCyc : World :=
  { rels := [ ⟨"r1", "idx", "uses", "a", "r2"⟩, ⟨"r2", "idx", "uses", "r1", "b"⟩ ] }

theorem wCyc_r1_step : relHits wCyc ["r1"] = [⟨"r2", "idx", "uses", "r1", "b"⟩] := by
  decide

theorem wCyc_r2_step : relHits wCyc ["r2"] = [⟨"r1", "idx", "uses", "a", "r2"⟩] := by
  decide

theorem wCyc_a_step : relHits wCyc ["a"] = [⟨"r1", "idx", "uses", "a", "r2"⟩] := by
  decide

theorem cyc_traversal_none (fuel : Nat) :
    (∀ els lvl c, c.props = [] →
      getRelatedRelationsRec wCyc fuel ["r1"] els lvl c = none)
    ∧ (∀ els lvl c, c.props = [] →
      getRelatedRelationsRec wCyc fuel ["r2"] els lvl c = none) := by
  induction fuel with
  | zero => exact ⟨fun _ _ _ _ => rfl, fun _ _ _ _ => rfl⟩
  | succ n ih =>
    constructor
    · intro els lvl c hc
      simp only [getRelatedRelationsRec, wCyc_r1_step,
        splitEvery_singleton MAX_JS_PARAMS (by decide),
        splitEvery_singleton MAX_SPLIT (by decide),
        List.foldl_cons, List.foldl_nil, List.map_cons, List.map_nil,
        List.filter_cons, List.filter_nil,
        JsMap.propGet_of_props_nil c hc, jsTruthy, Bool.not_false,
        List.append_nil, List.nil_append, List.length_cons, List.length_nil,
        List.foldlM_cons, List.foldlM_nil, if_true, gt_iff_lt, Nat.zero_lt_one,
        if_pos]
      rw [ih.2 _ _ _ (by simp [JsMap.set, hc])]
      rfl
    · intro els lvl c hc
      simp only [getRelatedRelationsRec, wCyc_r2_step,
        splitEvery_singleton MAX_JS_PARAMS (by decide),
        splitEvery_singleton MAX_SPLIT (by decide),
        List.foldl_cons, List.foldl_nil, List.map_cons, List.map_nil,
        List.filter_cons, List.filter_nil,
        JsMap.propGet_of_props_nil c hc, jsTruthy, Bool.not_false,
        List.append_nil, List.nil_append, List.length_cons, List.length_nil,
        List.foldlM_cons, List.foldlM_nil, if_true, gt_iff_lt, Nat.zero_lt_one,
        if_pos]
      rw [ih.1 _ _ _ (by simp [JsMap.set, hc])]
      rfl

/-- C3: on the spec's cyclic example the cascading traversal never returns:
the visited check reads `cache[f]` (an own-property access on the `Map`)
which never sees the ids recorded with `cache.set`, so the two
relationships re-queue each other forever — for every amount of fuel the
model yields no result. -/
theorem claim_C3_cascade_cycle_nontermination (fuel : Nat) :
    getRelationsToRemove wCyc fuel ["a"] = none := by
  cases fuel with
  | zero => rfl
  | succ n =>
    rw [getRelationsToRemove]
    simp only [getRelatedRelationsRec, wCyc_a_step,
      splitEvery_singleton MAX_JS_PARAMS (by decide),
      splitEvery_singleton MAX_SPLIT (by decide),
      List.foldl_cons, List.foldl_nil, List.map_cons, List.map_nil,
      List.filter_cons, List.filter_nil,
      JsMap.propGet_of_props_nil JsMap.empty rfl, jsTruthy, Bool.not_false,
      List.append_nil, List.nil_append, List.length_cons, List.length_nil,
      List.foldlM_cons, List.foldlM_nil, if_true, gt_iff_lt, Nat.zero_lt_one,
      if_pos]
    rw [(cyc_traversal_none n).1 _ _ _ (by simp [JsMap.set, JsMap.empty])]
    rfl

/-! ## Deletion effects (`elDeleteInstanceIds`, `elRemoveRelationConnection`,
`elDeleteElements`, lines 1623–1725)

Writes are represented as an effect trace: cache invalidations and bulk
bodies of per-document delete and scripted-update operations, in the order
the source issues them.  The store is the set of indexed documents the
bulks are applied to. -/

/-- What `elDeleteInstanceIds` reads off each instance: `_index` and
`internal_id`. -/
structure InstanceRef where
  index : String
  internal_id : String
  deriving DecidableEq, Repr

/-- The cleanup script
`if (ctx._source[field] != null) ctx._source[field].removeIf(rel -> rel == params.key)`
with its `params.key` (an absent endpoint id makes the comparison match
nothing). -/
structure CleanupScript where
  field : String
  key : Option String
  deriving DecidableEq, Repr

/-- One line pair of a bulk body. -/
inductive BulkOp where
  | deleteOp (index id : String) (retryOnConflict : Nat)
  | updateOp (index id : String) (script : CleanupScript) (retryOnConflict : Nat)
  deriving DecidableEq, Repr

/-- One issued write. -/
inductive Effect where
  | cacheDelete (ids : List String)
  | bulk (refresh : Bool) (body : List BulkOp)
  deriving DecidableEq, Repr

/-- `elDeleteInstanceIds(instances)` (lines 1623–1634): guarded on a
non-empty list — the source comment reads "If nothing to delete, return
immediately to prevent elastic to delete everything" — then issues a cache
delete and one bulk of `delete` operations. -/
def elDeleteInstanceIds (instances : List InstanceRef) : List Effect :=
  if instances.length > 0 then
    [ .cacheDelete (instances.map (fun d => d.internal_id)),
      .bulk true (instances.map (fun d =>
        .deleteOp d.index d.internal_id ES_RETRY_ON_CONFLICT)) ]
  else []

/-- A stored document: id, index, and array-valued attribute fields. -/
structure StoreDoc where
  internal_id : String
  index : String
  fields : List (String × List String)
  deriving DecidableEq, Repr

/-- The indexed document set. -/
structure Store where
  docs : List StoreDoc
  deriving DecidableEq, Repr

/-- All values a document holds under a field name. -/
def docFieldVals (d : StoreDoc) (f : String) : List String :=
  ((d.fields.filter (fun p => p.1 = f)).map (fun p => p.2)).flatten

/-- Strip a suffix from a string when it is present (character-wise). -/
def dropSuffixOpt (s suf : String) : Option String :=
  if suf.data.reverse.isPrefixOf s.data.reverse
    then some (String.mk (s.data.take (s.data.length - suf.data.length)))
    else none

/-- How the engine reads a stored document during query evaluation: the
searchable `.internal_id` sub-field of a denormalized reference field
yields the same id list as the field itself. -/
def docQueryFun (d : StoreDoc) (f : String) : List String :=
  match dropSuffixOpt f ".internal_id" with
  | some base => docFieldVals d base
  | none => docFieldVals d f

/-- Whether a stored document passes the user's marking restriction —
`elFindByIds` pushes `buildMarkingRestriction(user)` into the `must` /
`must_not` arms of its id-resolution query, so a document the user cannot
see is never returned. -/
def storeDocVisible (user : User) (d : StoreDoc) : Bool :=
  satisfiesRestriction (docQueryFun d) (buildMarkingRestriction user)

/-- What this pipeline reads of `elFindByIds(user, idsToResolve)`: the
`_index` of the resolved document with a given id (`indexCache` in the
source).  Resolution applies the user's marking restriction: an endpoint
the deleting user cannot see resolves to nothing. -/
def storeFindIndex (user : User) (store : Store) (id : String) : Option String :=
  (((store.docs.filter (storeDocVisible user)).find?
    (fun e => e.internal_id = id)).map (fun e => e.index))

/-- One element of `relsFromTo`: a relation to clean up with its flags
(endpoints are optional because a literal basic-relationship target carries
whatever the caller stored). -/
structure RelFromTo where
  internal_id : String
  entity_type : String
  fromId : Option String
  toId : Option String
  isFromCleanup : Bool
  isToCleanup : Bool
  deriving DecidableEq, Repr

/-- `elRemoveRelationConnection(user, relsFromTo)` (lines 1635–1682):
resolves the flagged endpoint ids (`R.uniq`), keeps an id→index cache of
the found documents, and emits per relation an update with the removeIf
script on the from side (key = `relation.toId`) and/or the to side (key =
`relation.fromId`), each only when the endpoint resolved to an index; ends
with the cache delete of the resolved documents and one bulk.
`relFromToOps` is the per-relation `updates` computation of its
`bodyUpdateRaw` map. -/
def relFromToOps (user : User) (store : Store) (r : RelFromTo) : List BulkOp :=
  let type := buildRefRelationKey r.entity_type
  let fromOps := match r.fromId with
    | some fid =>
      if r.isFromCleanup then
        match storeFindIndex user store fid with
        | some fromIndex =>
          [BulkOp.updateOp fromIndex fid ⟨type, r.toId⟩ ES_RETRY_ON_CONFLICT]
        | none => []
      else []
    | none => []
  let toOps := match r.toId with
    | some tid =>
      if r.isToCleanup then
        match storeFindIndex user store tid with
        | some toIndex =>
          [BulkOp.updateOp toIndex tid ⟨type, r.fromId⟩ ES_RETRY_ON_CONFLICT]
        | none => []
      else []
    | none => []
  fromOps ++ toOps

def elRemoveRelationConnection (user : User) (store : Store) (relsFromTo : List RelFromTo) :
    List Effect :=
  if relsFromTo.length > 0 then
    let idsToResolve := dedupFirst ((relsFromTo.map (fun r =>
      (if r.isFromCleanup then r.fromId.toList else []) ++
      (if r.isToCleanup then r.toId.toList else []))).flatten)
    let bodyUpdate := (relsFromTo.map (relFromToOps user store)).flatten
    [ .cacheDelete (idsToResolve.filter (fun i => (storeFindIndex user store i).isSome)),
      .bulk true bodyUpdate ]
  else []

/-- An element of a deletion batch handed to `elDeleteElements` (endpoint
ids are only present when the element is itself a relationship). -/
structure ElementDoc where
  internal_id : String
  index : String
  entity_type : String
  fromId : Option String
  toId : Option String
  deriving DecidableEq, Repr

/-- A discovered relation viewed as a cleanup candidate. -/
structure CleanupRel where
  internal_id : String
  index : String
  entity_type : String
  fromId : Option String
  toId : Option String
  deriving DecidableEq, Repr

def GraphRelation.toCleanupRel (r : GraphRelation) : CleanupRel :=
  ⟨r.internal_id, r.index, r.entity_type, some r.fromId, some r.toId⟩

def ElementDoc.toCleanupRel (e : ElementDoc) : CleanupRel :=
  ⟨e.internal_id, e.index, e.entity_type, e.fromId, e.toId⟩

/-- `map.has(x)` where `x` may be `undefined`. -/
def jsMapHasOpt (m : JsMap) (o : Option String) : Bool :=
  match o with
  | some k => m.hasKey k
  | none => false

/-- The per-relation body of the `relsFromToImpacts` map in
`elDeleteElements` (lines 1694–1700): an endpoint is flagged for cleanup
when its id is not in the visited-relation map (`fromWillNotBeRemoved` /
`toWillNotBeRemoved`) and its role is impactful. -/
def mkImpact (relationsToRemoveMap : JsMap) (r : CleanupRel) : RelFromTo :=
  { internal_id := r.internal_id, entity_type := r.entity_type,
    fromId := r.fromId, toId := r.toId,
    isFromCleanup := !(jsMapHasOpt relationsToRemoveMap r.fromId) &&
      isImpactedTypeAndSide r.entity_type ROLE_FROM,
    isToCleanup := !(jsMapHasOpt relationsToRemoveMap r.toId) &&
      isImpactedTypeAndSide r.entity_type ROLE_TO }

/-- `relsFromToImpacts` (lines 1692–1701): flag every cleanup relation and
drop the entries with neither flag. -/
def relsFromToImpacts (relationsToRemoveMap : JsMap)
    (cleanupRelations : List CleanupRel) : List RelFromTo :=
  (cleanupRelations.map (mkImpact relationsToRemoveMap)).filter
    (fun r => r.isFromCleanup || r.isToCleanup)

/-- The cleanup-relation list of a run: the discovered relations plus the
literal basic-relationship targets of the original batch. -/
def cleanupRelationsOf (found : List (GraphRelation × Nat))
    (isBasicRelationship : String → Bool) (elements : List ElementDoc) :
    List CleanupRel :=
  (found.map (fun p => p.1)).map GraphRelation.toCleanupRel ++
    (elements.filter (fun f => isBasicRelationship f.entity_type)).map
      ElementDoc.toCleanupRel

/-- Everything `elDeleteElements` does after the traversal (lines
1684–1725): load the non-meta stix relations for the caller
(`dependencyDeletions`, modelled by their ids), compute the cleanup
impacts, issue the grouped cleanup updates, then the grouped relation
deletions, then the deletion of the original elements. -/
def elDeleteElementsCore (user : User) (store : Store)
    (isStixRelationShipExceptMeta isBasicRelationship : String → Bool)
    (elements : List ElementDoc) (found : List (GraphRelation × Nat))
    (relationsToRemoveMap : JsMap) : List String × List Effect :=
  let relations := found.map (fun p => p.1)
  let stixRelations :=
    relations.filter (fun r => isStixRelationShipExceptMeta r.entity_type)
  let dependencyDeletions := stixRelations.map (fun r => r.internal_id)
  let cleanupRelations := cleanupRelationsOf found isBasicRelationship elements
  let impacts := relsFromToImpacts relationsToRemoveMap cleanupRelations
  let cleanupEffects := ((splitEvery MAX_SPLIT impacts).map
    (fun g => elRemoveRelationConnection user store g)).flatten
  let relDeleteEffects := ((splitEvery MAX_SPLIT relations).map
    (fun g => elDeleteInstanceIds (g.map (fun r =>
      ({ index := r.index, internal_id := r.internal_id } : InstanceRef))))).flatten
  let elementDeleteEffects := elDeleteInstanceIds (elements.map (fun e =>
    ({ index := e.index, internal_id := e.internal_id } : InstanceRef)))
  (dependencyDeletions, cleanupEffects ++ relDeleteEffects ++ elementDeleteEffects)

/-- `elDeleteElements(user, elements, loaders)` (lines 1684–1725), fuelled
through the traversal: an empty batch returns `[]` immediately, before any
traversal or write. -/
def elDeleteElements (user : User) (w : World) (store : Store) (fuel : Nat)
    (isStixRelationShipExceptMeta isBasicRelationship : String → Bool)
    (elements : List ElementDoc) : Option (List String × List Effect) :=
  if elements.length = 0 then some ([], [])
  else
    match getRelationsToRemove w fuel (elements.map (fun e => e.internal_id)) with
    | none => none
    | some (found, relationsToRemoveMap) =>
      some (elDeleteElementsCore user store isStixRelationShipExceptMeta
        isBasicRelationship elements found relationsToRemoveMap)

/-- C4: deleting an empty batch performs zero writes — `elDeleteElements`
returns an empty result with an empty effect trace without touching the
traversal, and `elDeleteInstanceIds` of an empty instance list issues no
bulk at all (in particular no unbounded delete). -/
theorem claim_C4_empty_batch_noop (user : User) (w : World) (store : Store)
    (fuel : Nat) (iser isbr : String → Bool) :
    elDeleteElements user w store fuel iser isbr [] = some ([], [])
    ∧ elDeleteInstanceIds [] = [] :=
  ⟨rfl, rfl⟩

/-! ## Applying the effect trace to the store

The engine applies each bulk operation per document: a `delete` removes the
document with the given `_id` in the given index; the cleanup update runs
the removeIf script on the matching document.  The script edits only the
named field and only the entries equal to `params.key`. -/

/-- Running the cleanup script on one document: an existing field keeps all
values except those equal to the key; an absent field (the
`ctx._source[field] != null` guard) and all other fields are untouched. -/
def StoreDoc.applyCleanup (s : CleanupScript) (d : StoreDoc) : StoreDoc :=
  { d with fields := d.fields.map (fun p =>
      if p.1 = s.field then (p.1, p.2.filter (fun v => decide (some v ≠ s.key)))
      else p) }

/-- Whether a document is addressed by a bulk operation: matching `_id`
within the matching index. -/
def docMatches (idx id : String) (d : StoreDoc) : Bool :=
  decide (d.internal_id = id) && decide (d.index = idx)

def applyBulkOp (store : Store) (op : BulkOp) : Store :=
  match op with
  | .deleteOp idx id _ =>
    ⟨store.docs.filter (fun d => !(docMatches idx id d))⟩
  | .updateOp idx id script _ =>
    ⟨store.docs.map (fun d =>
      if docMatches idx id d then d.applyCleanup script else d)⟩

def applyEffect (store : Store) : Effect → Store
  | .cacheDelete _ => store
  | .bulk _ ops => ops.foldl applyBulkOp store

def applyEffects (effs : List Effect) (store : Store) : Store :=
  effs.foldl applyEffect store

/-- The flattened bulk operations of an effect trace, in issue order. -/
def allOps (effs : List Effect) : List BulkOp :=
  (effs.map (fun e => match e with
    | .cacheDelete _ => []
    | .bulk _ ops => ops)).flatten

/-- The per-document view of one bulk operation. -/
def docApplyOp (op : BulkOp) (d : StoreDoc) : Option StoreDoc :=
  match op with
  | .deleteOp idx id _ =>
    if docMatches idx id d then none else some d
  | .updateOp idx id script _ =>
    some (if docMatches idx id d then d.applyCleanup script else d)

/-- The per-document view of an operation sequence. -/
def docApplyOps (ops : List BulkOp) (d : StoreDoc) : Option StoreDoc :=
  ops.foldlM (fun acc op => docApplyOp op acc) d

theorem docApplyOps_nil (d : StoreDoc) : docApplyOps [] d = some d := rfl

theorem docApplyOps_cons (op : BulkOp) (ops : List BulkOp) (d : StoreDoc) :
    docApplyOps (op :: ops) d = (docApplyOp op d).bind (docApplyOps ops) := rfl

theorem filterMap_right_id {α : Type} (l : List α) :
    l.filterMap (fun a => some a) = l := by
  induction l with
  | nil => rfl
  | cons x xs ih => simp [List.filterMap_cons, ih]

theorem filter_not_eq_filterMap {α : Type} (p : α → Bool) (l : List α) :
    l.filter (fun d => !(p d)) =
      l.filterMap (fun d => if p d then none else some d) := by
  induction l with
  | nil => rfl
  | cons x xs ih =>
    cases h : p x <;> simp [List.filterMap_cons, List.filter_cons, h, ih]

/-- Bulk application is a per-document pipeline: folding the operations
over the store equals filter-mapping each document through the operation
sequence. -/
theorem applyOps_eq_filterMap : ∀ (ops : List BulkOp) (store : Store),
    (ops.foldl applyBulkOp store).docs = store.docs.filterMap (docApplyOps ops) := by
  intro ops
  induction ops with
  | nil =>
    intro store
    simp only [List.foldl_nil]
    rw [show docApplyOps ([] : List BulkOp) = fun d => some d from rfl]
    exact (filterMap_right_id store.docs).symm
  | cons op rest ih =>
    intro store
    simp only [List.foldl_cons]
    rw [ih]
    have hstep : (applyBulkOp store op).docs = store.docs.filterMap (docApplyOp op) := by
      cases op with
      | deleteOp idx id rc =>
        simp only [applyBulkOp]
        rw [show docApplyOp (BulkOp.deleteOp idx id rc) =
          (fun d => if docMatches idx id d then none else some d) from rfl]
        exact filter_not_eq_filterMap _ _
      | updateOp idx id script rc =>
        simp only [applyBulkOp, docApplyOp]
        rw [← List.filterMap_eq_map]
        rfl
    rw [hstep, List.filterMap_filterMap]
    rfl

theorem applyEffects_docs (effs : List Effect) (store : Store) :
    (applyEffects effs store).docs = store.docs.filterMap (docApplyOps (allOps effs)) := by
  induction effs generalizing store with
  | nil =>
    simp only [applyEffects, List.foldl_nil, allOps, List.map_nil, List.flatten_nil]
    rw [show docApplyOps ([] : List BulkOp) = fun d => some d from rfl]
    exact (filterMap_right_id store.docs).symm
  | cons e rest ih =>
    cases e with
    | cacheDelete ids =>
      simp only [applyEffects, List.foldl_cons, applyEffect]
      have h2 := ih store
      simp only [applyEffects] at h2
      rw [h2]
      rfl
    | bulk refresh ops =>
      simp only [applyEffects, List.foldl_cons, applyEffect]
      have h2 := ih (Store.mk (ops.foldl applyBulkOp store).docs)
      simp only [applyEffects] at h2
      have h3 : List.foldl applyEffect (ops.foldl applyBulkOp store) rest =
          List.foldl applyEffect (Store.mk (ops.foldl applyBulkOp store).docs) rest := by
        rfl
      rw [h3, h2, applyOps_eq_filterMap, List.filterMap_filterMap]
      congr 1
      funext d
      exact (show docApplyOps (ops ++ allOps rest) d =
          (docApplyOps ops d).bind (docApplyOps (allOps rest)) by
        simp only [docApplyOps]
        exact List.foldlM_append _ _ _ _).symm

/-- What the removeIf script does to a document's field values: the named
field loses exactly the entries equal to the key, every other field is
untouched. -/
theorem docFieldVals_applyCleanup (s : CleanupScript) (d : StoreDoc) (f : String) :
    docFieldVals (d.applyCleanup s) f =
      if f = s.field
        then (docFieldVals d f).filter (fun v => decide (some v ≠ s.key))
        else docFieldVals d f := by
  obtain ⟨id, idx, fields⟩ := d
  simp only [StoreDoc.applyCleanup, docFieldVals]
  induction fields with
  | nil => simp
  | cons p ps ih =>
    obtain ⟨k, vs⟩ := p
    by_cases hk : k = s.field <;> by_cases hf : k = f <;>
      by_cases hfs : f = s.field <;>
        simp_all [List.filter_cons, List.filter_append]

theorem docApplyOp_id_index (op : BulkOp) (d d' : StoreDoc)
    (h : docApplyOp op d = some d') :
    d'.internal_id = d.internal_id ∧ d'.index = d.index := by
  cases op with
  | deleteOp idx id rc =>
    simp only [docApplyOp] at h
    by_cases hm : docMatches idx id d = true
    · rw [if_pos hm] at h; cases h
    · rw [if_neg hm] at h
      cases h
      exact ⟨rfl, rfl⟩
  | updateOp idx id script rc =>
    simp only [docApplyOp] at h
    cases h
    by_cases hm : docMatches idx id d = true
    · rw [if_pos hm]
      exact ⟨rfl, rfl⟩
    · rw [if_neg hm]
      exact ⟨rfl, rfl⟩

theorem docApplyOp_vals_subset (op : BulkOp) (d d' : StoreDoc)
    (h : docApplyOp op d = some d') (f : String) (v : String)
    (hv : v ∈ docFieldVals d' f) : v ∈ docFieldVals d f := by
  cases op with
  | deleteOp idx id rc =>
    simp only [docApplyOp] at h
    by_cases hm : docMatches idx id d = true
    · rw [if_pos hm] at h; cases h
    · rw [if_neg hm] at h
      cases h
      exact hv
  | updateOp idx id script rc =>
    simp only [docApplyOp] at h
    cases h
    by_cases hm : docMatches idx id d = true
    · rw [if_pos hm] at hv
      rw [docFieldVals_applyCleanup] at hv
      by_cases hf : f = script.field
      · rw [if_pos hf] at hv
        exact List.mem_of_mem_filter hv
      · rwa [if_neg hf] at hv
    · rwa [if_neg hm] at hv

theorem docApplyOps_mono (ops : List BulkOp) : ∀ (d d' : StoreDoc),
    docApplyOps ops d = some d' →
    d'.internal_id = d.internal_id ∧ d'.index = d.index ∧
      ∀ f v, v ∈ docFieldVals d' f → v ∈ docFieldVals d f := by
  induction ops with
  | nil =>
    intro d d' h
    rw [docApplyOps_nil] at h
    cases h
    exact ⟨rfl, rfl, fun _ _ hv => hv⟩
  | cons op rest ih =>
    intro d d' h
    rw [docApplyOps_cons] at h
    cases hop : docApplyOp op d with
    | none => rw [hop] at h; cases h
    | some dmid =>
      rw [hop] at h
      simp only [Option.some_bind] at h
      obtain ⟨h1, h2, h3⟩ := ih dmid d' h
      obtain ⟨g1, g2⟩ := docApplyOp_id_index op d dmid hop
      exact ⟨h1.trans g1, h2.trans g2,
        fun f v hv => docApplyOp_vals_subset op d dmid hop f v (h3 f v hv)⟩

/-- If the operation sequence contains a cleanup update addressed to a
document, the surviving descendant of that document no longer carries the
script key under the script field. -/
theorem docApplyOps_removes (ops : List BulkOp) : ∀ (d d' : StoreDoc)
    (idx id f k : String) (rc : Nat),
    BulkOp.updateOp idx id ⟨f, some k⟩ rc ∈ ops →
    docApplyOps ops d = some d' →
    d.internal_id = id → d.index = idx →
    k ∉ docFieldVals d' f := by
  induction ops with
  | nil =>
    intro d d' idx id f k rc hmem
    cases hmem
  | cons op rest ih =>
    intro d d' idx id f k rc hmem h hid hidx
    rw [docApplyOps_cons] at h
    cases hop : docApplyOp op d with
    | none => rw [hop] at h; cases h
    | some dmid =>
      rw [hop] at h
      simp only [Option.some_bind] at h
      rcases List.mem_cons.mp hmem with heq | hmem2
      · subst heq
        have hm : docMatches idx id d = true := by
          simp [docMatches, hid, hidx]
        simp only [docApplyOp, hm, if_pos] at hop
        have hdm : dmid = d.applyCleanup ⟨f, some k⟩ := by
          cases hop
          rfl
        intro hkd
        have hkmid := (docApplyOps_mono rest dmid d' h).2.2 f k hkd
        rw [hdm, docFieldVals_applyCleanup] at hkmid
        simp at hkmid
      · obtain ⟨g1, g2⟩ := docApplyOp_id_index op d dmid hop
        exact ih dmid d' idx id f k rc hmem2 h (g1.trans hid) (g2.trans hidx)

/-- A document no delete operation addresses survives the whole sequence. -/
theorem docApplyOps_some_of_no_delete (ops : List BulkOp) : ∀ (d : StoreDoc),
    (∀ idx id rc, BulkOp.deleteOp idx id rc ∈ ops →
      ¬(d.internal_id = id ∧ d.index = idx)) →
    ∃ d', docApplyOps ops d = some d' := by
  induction ops with
  | nil =>
    intro d _
    exact ⟨d, rfl⟩
  | cons op rest ih =>
    intro d hnd
    rw [docApplyOps_cons]
    cases op with
    | deleteOp idx id rc =>
      have hm : docMatches idx id d = false := by
        have := hnd idx id rc (List.mem_cons_self _ _)
        simp only [docMatches]
        rcases Decidable.em (d.internal_id = id) with h1 | h1 <;>
          rcases Decidable.em (d.index = idx) with h2 | h2 <;>
            simp_all
      simp only [docApplyOp, hm, Bool.false_eq_true, if_false, Option.some_bind]
      exact ih d (fun idx2 id2 rc2 hmem => hnd idx2 id2 rc2 (List.mem_cons_of_mem _ hmem))
    | updateOp idx id script rc =>
      simp only [docApplyOp, Option.some_bind]
      refine ih _ (fun idx2 id2 rc2 hmem => ?_)
      have hpres : (if docMatches idx id d then d.applyCleanup script else d).internal_id
            = d.internal_id
          ∧ (if docMatches idx id d then d.applyCleanup script else d).index = d.index := by
        by_cases hm : docMatches idx id d = true
        · rw [if_pos hm]; exact ⟨rfl, rfl⟩
        · rw [if_neg hm]; exact ⟨rfl, rfl⟩
      rw [hpres.1, hpres.2]
      exact hnd idx2 id2 rc2 (List.mem_cons_of_mem _ hmem)

/-! ## Characterising the operations a deletion run issues -/

/-- The discovered relations of a traversal result. -/
def relationsOf (found : List (GraphRelation × Nat)) : List GraphRelation :=
  found.map (fun p => p.1)

/-- The ids erased by a run: every discovered relation and every original
target. -/
def deletedIdsOf (found : List (GraphRelation × Nat))
    (elements : List ElementDoc) : List String :=
  (relationsOf found).map (fun r => r.internal_id) ++
    elements.map (fun e => e.internal_id)

theorem allOps_append (a b : List Effect) :
    allOps (a ++ b) = allOps a ++ allOps b := by
  simp [allOps]

theorem mem_allOps_flatten_map {α : Type} (l : List α) (f : α → List Effect)
    (op : BulkOp) :
    op ∈ allOps (l.map f).flatten ↔ ∃ x ∈ l, op ∈ allOps (f x) := by
  induction l with
  | nil => simp [allOps]
  | cons x xs ih =>
    simp only [List.map_cons, List.flatten_cons, allOps_append, List.mem_append, ih,
      List.mem_cons]
    constructor
    · rintro (h | ⟨y, hy, hop⟩)
      · exact ⟨x, Or.inl rfl, h⟩
      · exact ⟨y, Or.inr hy, hop⟩
    · rintro ⟨y, hy | hy, hop⟩
      · subst hy; exact Or.inl hop
      · exact Or.inr ⟨y, hy, hop⟩

theorem mem_allOps_elDeleteInstanceIds (instances : List InstanceRef)
    (op : BulkOp) :
    op ∈ allOps (elDeleteInstanceIds instances) ↔
      ∃ d ∈ instances, op = .deleteOp d.index d.internal_id ES_RETRY_ON_CONFLICT := by
  rw [elDeleteInstanceIds]
  by_cases h : instances.length > 0
  · rw [if_pos h]
    simp [allOps, List.mem_map, eq_comm]
  · rw [if_neg h]
    have : instances = [] := by
      simpa [List.length_eq_zero] using Nat.le_zero.mp (Nat.not_lt.mp h)
    simp [this, allOps]

/-- What any operation of an `elRemoveRelationConnection` bulk looks like:
an update produced by a flagged side of one of the entries, with the index
resolved through the store. -/
theorem mem_allOps_elRemoveRelationConnection (user : User) (store : Store)
    (g : List RelFromTo) (op : BulkOp)
    (h : op ∈ allOps (elRemoveRelationConnection user store g)) :
    ∃ r ∈ g, ∃ idx id,
      (r.fromId = some id ∧ r.isFromCleanup = true ∧
        storeFindIndex user store id = some idx ∧
        op = .updateOp idx id ⟨buildRefRelationKey r.entity_type, r.toId⟩
          ES_RETRY_ON_CONFLICT) ∨
      (r.toId = some id ∧ r.isToCleanup = true ∧
        storeFindIndex user store id = some idx ∧
        op = .updateOp idx id ⟨buildRefRelationKey r.entity_type, r.fromId⟩
          ES_RETRY_ON_CONFLICT) := by
  rw [elRemoveRelationConnection] at h
  by_cases hg : g.length > 0
  · rw [if_pos hg] at h
    replace h : ∃ r ∈ g, op ∈ relFromToOps user store r := by
      simpa [allOps] using h
    obtain ⟨r, hr, hop⟩ := h
    refine ⟨r, hr, ?_⟩
    simp only [relFromToOps] at hop
    rcases List.mem_append.mp hop with hf | ht
    · cases hfrom : r.fromId with
      | none => simp only [hfrom] at hf; cases hf
      | some fid =>
        simp only [hfrom] at hf
        by_cases hfc : r.isFromCleanup = true
        · simp only [hfc, if_true] at hf
          cases hsf : storeFindIndex user store fid with
          | none => simp only [hsf] at hf; cases hf
          | some idx =>
            simp only [hsf] at hf
            rcases List.mem_singleton.mp hf with rfl
            exact ⟨idx, fid, Or.inl ⟨rfl, hfc, hsf, rfl⟩⟩
        · simp only [if_neg hfc] at hf
          cases hf
    · cases hto : r.toId with
      | none => simp only [hto] at ht; cases ht
      | some tid =>
        simp only [hto] at ht
        by_cases htc : r.isToCleanup = true
        · simp only [htc, if_true] at ht
          cases hst : storeFindIndex user store tid with
          | none => simp only [hst] at ht; cases ht
          | some idx =>
            simp only [hst] at ht
            rcases List.mem_singleton.mp ht with rfl
            exact ⟨idx, tid, Or.inr ⟨rfl, htc, hst, rfl⟩⟩
        · simp only [if_neg htc] at ht
          cases ht
  · rw [if_neg hg] at h
    cases h

theorem relFromToOps_from_mem (user : User) (store : Store) (r : RelFromTo) (fid idx : String)
    (hfrom : r.fromId = some fid) (hfc : r.isFromCleanup = true)
    (hsf : storeFindIndex user store fid = some idx) :
    BulkOp.updateOp idx fid ⟨buildRefRelationKey r.entity_type, r.toId⟩
      ES_RETRY_ON_CONFLICT ∈ relFromToOps user store r := by
  simp only [relFromToOps, hfrom, hfc, if_true, hsf]
  exact List.mem_append.mpr (Or.inl (List.mem_singleton.mpr rfl))

theorem relFromToOps_to_mem (user : User) (store : Store) (r : RelFromTo) (tid idx : String)
    (hto : r.toId = some tid) (htc : r.isToCleanup = true)
    (hst : storeFindIndex user store tid = some idx) :
    BulkOp.updateOp idx tid ⟨buildRefRelationKey r.entity_type, r.fromId⟩
      ES_RETRY_ON_CONFLICT ∈ relFromToOps user store r := by
  simp only [relFromToOps, hto, htc, if_true, hst]
  exact List.mem_append.mpr (Or.inr (List.mem_singleton.mpr rfl))

theorem elRemoveRelationConnection_mem (user : User) (store : Store) (g : List RelFromTo)
    (r : RelFromTo) (op : BulkOp) (hr : r ∈ g) (hop : op ∈ relFromToOps user store r) :
    op ∈ allOps (elRemoveRelationConnection user store g) := by
  have hg : g.length > 0 := List.length_pos.mpr (List.ne_nil_of_mem hr)
  rw [elRemoveRelationConnection, if_pos hg]
  have hmem : op ∈ (g.map (relFromToOps user store)).flatten :=
    List.mem_flatten.mpr ⟨relFromToOps user store r, List.mem_map_of_mem _ hr, hop⟩
  simpa [allOps] using hmem

/-- A cleanup update flagged by the impact computation is issued by the
run. -/
theorem core_cleanup_mem (user : User) (store : Store) (iser isbr : String → Bool)
    (elements : List ElementDoc) (found : List (GraphRelation × Nat))
    (map : JsMap) (e : RelFromTo) (op : BulkOp)
    (he : e ∈ relsFromToImpacts map (cleanupRelationsOf found isbr elements))
    (hop : op ∈ relFromToOps user store e) :
    op ∈ allOps (elDeleteElementsCore user store iser isbr elements found map).2 := by
  simp only [elDeleteElementsCore]
  rw [allOps_append, allOps_append]
  refine List.mem_append.mpr (Or.inl (List.mem_append.mpr (Or.inl ?_)))
  obtain ⟨g, hgmem, hge⟩ := (mem_splitEvery MAX_SPLIT (by decide) _ e).mpr he
  exact (mem_allOps_flatten_map _ _ op).mpr
    ⟨g, hgmem, elRemoveRelationConnection_mem user store g e op hge hop⟩

/-- Soundness of the issued operations: every delete targets a deleted id,
and every update is the flagged cleanup of one of the run's cleanup
relations — its endpoint not in the visited map, its side impactful, its
index resolved through the store. -/
theorem core_ops_sound (user : User) (store : Store) (iser isbr : String → Bool)
    (elements : List ElementDoc) (found : List (GraphRelation × Nat))
    (map : JsMap) (op : BulkOp)
    (h : op ∈ allOps (elDeleteElementsCore user store iser isbr elements found map).2) :
    (∃ idx id rc, op = .deleteOp idx id rc ∧ id ∈ deletedIdsOf found elements) ∨
    (∃ r ∈ cleanupRelationsOf found isbr elements, ∃ idx id,
      (r.fromId = some id ∧ jsMapHasOpt map r.fromId = false ∧
        isImpactedTypeAndSide r.entity_type ROLE_FROM = true ∧
        storeFindIndex user store id = some idx ∧
        op = .updateOp idx id ⟨buildRefRelationKey r.entity_type, r.toId⟩
          ES_RETRY_ON_CONFLICT) ∨
      (r.toId = some id ∧ jsMapHasOpt map r.toId = false ∧
        isImpactedTypeAndSide r.entity_type ROLE_TO = true ∧
        storeFindIndex user store id = some idx ∧
        op = .updateOp idx id ⟨buildRefRelationKey r.entity_type, r.fromId⟩
          ES_RETRY_ON_CONFLICT)) := by
  simp only [elDeleteElementsCore] at h
  rw [allOps_append, allOps_append] at h
  rcases List.mem_append.mp h with h1 | helem
  · rcases List.mem_append.mp h1 with hclean | hrel
    · -- a cleanup update
      obtain ⟨g, hgmem, hop⟩ := (mem_allOps_flatten_map _ _ op).mp hclean
      obtain ⟨e, he, hsides⟩ :=
        mem_allOps_elRemoveRelationConnection user store g op hop
      have he2 : e ∈ relsFromToImpacts map (cleanupRelationsOf found isbr elements) :=
        (mem_splitEvery MAX_SPLIT (by decide) _ e).mp ⟨g, hgmem, he⟩
      obtain ⟨hmapped, _⟩ := List.mem_filter.mp he2
      obtain ⟨c, hc, rfl⟩ := List.mem_map.mp hmapped
      refine Or.inr ⟨c, hc, ?_⟩
      obtain ⟨idx, id, hside⟩ := hsides
      refine ⟨idx, id, ?_⟩
      rcases hside with ⟨h1, h2, h3, h4⟩ | ⟨h1, h2, h3, h4⟩
      · left
        simp only [mkImpact] at h1 h2 h4
        rw [Bool.and_eq_true] at h2
        obtain ⟨hnm, himp⟩ := h2
        exact ⟨h1, by simpa using hnm, himp, h3, h4⟩
      · right
        simp only [mkImpact] at h1 h2 h4
        rw [Bool.and_eq_true] at h2
        obtain ⟨hnm, himp⟩ := h2
        exact ⟨h1, by simpa using hnm, himp, h3, h4⟩
    · -- a relation delete
      obtain ⟨g, hgmem, hop⟩ := (mem_allOps_flatten_map _ _ op).mp hrel
      obtain ⟨d, hd, rfl⟩ := (mem_allOps_elDeleteInstanceIds _ op).mp hop
      obtain ⟨r, hrg, rfl⟩ := List.mem_map.mp hd
      have hrrel : r ∈ relationsOf found :=
        (mem_splitEvery MAX_SPLIT (by decide) _ r).mp ⟨g, hgmem, hrg⟩
      exact Or.inl ⟨r.index, r.internal_id, ES_RETRY_ON_CONFLICT, rfl,
        List.mem_append.mpr (Or.inl (List.mem_map_of_mem _ hrrel))⟩
  · -- an original-element delete
    obtain ⟨d, hd, rfl⟩ := (mem_allOps_elDeleteInstanceIds _ op).mp helem
    obtain ⟨e, heel, rfl⟩ := List.mem_map.mp hd
    exact Or.inl ⟨e.index, e.internal_id, ES_RETRY_ON_CONFLICT, rfl,
      List.mem_append.mpr (Or.inr (List.mem_map_of_mem _ heel))⟩

theorem docMatches_iff (idx id : String) (d : StoreDoc) :
    docMatches idx id d = true ↔ d.internal_id = id ∧ d.index = idx := by
  simp [docMatches]

/-- A field value survives the pipeline unless some matching update scripts
that very field with that very value as key. -/
theorem docApplyOps_preserves (ops : List BulkOp) : ∀ (d d' : StoreDoc) (f v : String),
    docApplyOps ops d = some d' →
    (∀ idx id s rc, BulkOp.updateOp idx id s rc ∈ ops →
      id = d.internal_id → idx = d.index → s.field = f → s.key ≠ some v) →
    v ∈ docFieldVals d f → v ∈ docFieldVals d' f := by
  induction ops with
  | nil =>
    intro d d' f v h _ hv
    rw [docApplyOps_nil] at h
    cases h
    exact hv
  | cons op rest ih =>
    intro d d' f v h hkeys hv
    rw [docApplyOps_cons] at h
    cases hop : docApplyOp op d with
    | none => rw [hop] at h; cases h
    | some dmid =>
      rw [hop] at h
      simp only [Option.some_bind] at h
      have hpre : dmid.internal_id = d.internal_id ∧ dmid.index = d.index :=
        docApplyOp_id_index op d dmid hop
      refine ih dmid d' f v h (fun idx id s rc hmem hid hidx =>
        hkeys idx id s rc (List.mem_cons_of_mem _ hmem)
          (hid.trans hpre.1) (hidx.trans hpre.2)) ?_
      cases op with
      | deleteOp idx id rc =>
        simp only [docApplyOp] at hop
        by_cases hm : docMatches idx id d = true
        · rw [if_pos hm] at hop; cases hop
        · rw [if_neg hm] at hop
          cases hop
          exact hv
      | updateOp idx id s rc =>
        simp only [docApplyOp] at hop
        cases hop
        by_cases hm : docMatches idx id d = true
        · rw [if_pos hm]
          obtain ⟨hid, hidx⟩ := (docMatches_iff idx id d).mp hm
          rw [docFieldVals_applyCleanup]
          by_cases hf : f = s.field
          · rw [if_pos hf]
            have hkey : s.key ≠ some v :=
              hkeys idx id s rc (List.mem_cons_self _ _) hid.symm hidx.symm hf.symm
            refine List.mem_filter.mpr ⟨hv, ?_⟩
            simp [Ne.symm, hkey]
          · rwa [if_neg hf]
        · rwa [if_neg hm]

/-- A field no matching update scripts is carried through the pipeline
completely unchanged (same values, same order, same multiplicity). -/
theorem docApplyOps_field_eq (ops : List BulkOp) : ∀ (d d' : StoreDoc) (f : String),
    docApplyOps ops d = some d' →
    (∀ idx id s rc, BulkOp.updateOp idx id s rc ∈ ops →
      id = d.internal_id → idx = d.index → s.field ≠ f) →
    docFieldVals d' f = docFieldVals d f := by
  induction ops with
  | nil =>
    intro d d' f h _
    rw [docApplyOps_nil] at h
    cases h
    rfl
  | cons op rest ih =>
    intro d d' f h hfields
    rw [docApplyOps_cons] at h
    cases hop : docApplyOp op d with
    | none => rw [hop] at h; cases h
    | some dmid =>
      rw [hop] at h
      simp only [Option.some_bind] at h
      have hpre : dmid.internal_id = d.internal_id ∧ dmid.index = d.index :=
        docApplyOp_id_index op d dmid hop
      have htail := ih dmid d' f h (fun idx id s rc hmem hid hidx =>
        hfields idx id s rc (List.mem_cons_of_mem _ hmem)
          (hid.trans hpre.1) (hidx.trans hpre.2))
      rw [htail]
      cases op with
      | deleteOp idx id rc =>
        simp only [docApplyOp] at hop
        by_cases hm : docMatches idx id d = true
        · rw [if_pos hm] at hop; cases hop
        · rw [if_neg hm] at hop
          cases hop
          rfl
      | updateOp idx id s rc =>
        simp only [docApplyOp] at hop
        cases hop
        by_cases hm : docMatches idx id d = true
        · rw [if_pos hm]
          obtain ⟨hid, hidx⟩ := (docMatches_iff idx id d).mp hm
          have hsf : s.field ≠ f :=
            hfields idx id s rc (List.mem_cons_self _ _) hid.symm hidx.symm
          rw [docFieldVals_applyCleanup]
          rw [if_neg (fun hc => hsf hc.symm)]
        · rw [if_neg hm]

theorem find_index_of_mem_list (docs : List StoreDoc) (d : StoreDoc)
    (huniq : (docs.map (fun x => x.internal_id)).Nodup) (hd : d ∈ docs) :
    (docs.find? (fun e => e.internal_id = d.internal_id)).map (fun e => e.index)
      = some d.index := by
  induction docs with
  | nil => cases hd
  | cons x xs ih =>
    rw [List.map_cons, List.nodup_cons] at huniq
    by_cases hx : x.internal_id = d.internal_id
    · have hxd : x = d := by
        rcases List.mem_cons.mp hd with rfl | hdx
        · rfl
        · exact absurd (hx ▸ List.mem_map_of_mem (fun y => y.internal_id) hdx)
            huniq.1
      rw [List.find?_cons_of_pos _ (by simp [hx])]
      rw [hxd]
      rfl
    · rcases List.mem_cons.mp hd with rfl | hdx
      · exact absurd rfl hx
      · rw [List.find?_cons_of_neg _ (by simp [hx])]
        exact ih huniq.2 hdx

/-- With unique ids in the store, resolving a present document visible to
the user yields its index. -/
theorem storeFindIndex_of_mem (user : User) (store : Store) (d : StoreDoc)
    (huniq : (store.docs.map (fun x => x.internal_id)).Nodup)
    (hd : d ∈ store.docs) (hvis : storeDocVisible user d = true) :
    storeFindIndex user store d.internal_id = some d.index := by
  have hsub : ((store.docs.filter (storeDocVisible user)).map
      (fun x => x.internal_id)).Sublist (store.docs.map (fun x => x.internal_id)) :=
    (List.filter_sublist _).map _
  exact find_index_of_mem_list _ d (List.Nodup.sublist hsub huniq)
    (List.mem_filter.mpr ⟨hd, hvis⟩)

/-- The denormalization invariant tying a store to the relationship
universe: a value in a denormalized reference field `rel_T` of a document
witnesses a relationship of type `T` between the document and that value,
denormalized on an impactful side. -/
def DenormInvariant (w : World) (store : Store) : Prop :=
  ∀ d ∈ store.docs, ∀ T v, v ∈ docFieldVals d (buildRefRelationKey T) →
    ∃ r ∈ w.rels, r.entity_type = T ∧
      ((r.fromId = d.internal_id ∧ r.toId = v ∧
        isImpactedTypeAndSide T ROLE_FROM = true) ∨
       (r.toId = d.internal_id ∧ r.fromId = v ∧
        isImpactedTypeAndSide T ROLE_TO = true))

/-- A reference a deleted relationship (or a literal basic-relationship
target of the batch) justifies removing from a document: the other endpoint
of such a relationship having the document as an endpoint, and only in the
one denormalized field named by that relationship's type. -/
def RemovedRef (found : List (GraphRelation × Nat)) (isbr : String → Bool)
    (elements : List ElementDoc) (docId f v : String) : Prop :=
  ∃ c ∈ cleanupRelationsOf found isbr elements,
    f = buildRefRelationKey c.entity_type ∧
    ((c.fromId = some docId ∧ c.toId = some v) ∨
     (c.toId = some docId ∧ c.fromId = some v))

/-- Whether some deleted relationship addresses a document's field at all:
when not, the code issues no script on that field of that document. -/
def TouchedField (found : List (GraphRelation × Nat)) (isbr : String → Bool)
    (elements : List ElementDoc) (docId f : String) : Prop :=
  ∃ c ∈ cleanupRelationsOf found isbr elements,
    f = buildRefRelationKey c.entity_type ∧
    (c.fromId = some docId ∨ c.toId = some docId)

/-- C5 (amended): after a deletion run (traversal output `found`/`map`,
post-traversal pipeline `elDeleteElementsCore`), provided the traversal
output is sound and complete for the relationship universe, the store
satisfies the denormalization invariant, and the deleting user can see the
stored documents (endpoint resolution goes through `elFindByIds`, which
applies the marking restriction):
(1) no denormalized reference field of a surviving document still contains
a deleted id; (2) cleanup is surgical — every surviving document survives
with its id and index, gains no values, keeps every entry whose removal no
deleted relationship justifies in exactly that field, and every field no
deleted relationship addresses is carried through literally unchanged;
(3) every issued cleanup update targets an endpoint id that is not in the
visited-relation map and whose role is impactful — which is the code's
surviving check: an original target entity, absent from that map, also
receives a (harmless) cleanup even though it is itself deleted. -/
theorem claim_C5_cleanup_frame (user : User) (w : World) (store : Store)
    (iser isbr : String → Bool) (elements : List ElementDoc)
    (found : List (GraphRelation × Nat)) (map : JsMap)
    (huniq : (store.docs.map (fun d => d.internal_id)).Nodup)
    (hvisible : ∀ d ∈ store.docs, storeDocVisible user d = true)
    (hmap : ∀ id, map.hasKey id = true ↔
      id ∈ (relationsOf found).map (fun r => r.internal_id))
    (hcomplete : ∀ r ∈ w.rels,
      (r.fromId ∈ deletedIdsOf found elements ∨
        r.toId ∈ deletedIdsOf found elements) →
      r ∈ relationsOf found)
    (hinv : DenormInvariant w store) :
    (∀ E1 ∈ (applyEffects
        (elDeleteElementsCore user store iser isbr elements found map).2 store).docs,
      E1.internal_id ∉ deletedIdsOf found elements →
      ∀ T v, v ∈ docFieldVals E1 (buildRefRelationKey T) →
        v ∉ deletedIdsOf found elements)
    ∧ (∀ E0 ∈ store.docs, E0.internal_id ∉ deletedIdsOf found elements →
      ∃ E1 ∈ (applyEffects
          (elDeleteElementsCore user store iser isbr elements found map).2 store).docs,
        E1.internal_id = E0.internal_id ∧ E1.index = E0.index ∧
        (∀ f v, v ∈ docFieldVals E1 f → v ∈ docFieldVals E0 f) ∧
        (∀ f v, v ∈ docFieldVals E0 f →
          ¬ RemovedRef found isbr elements E0.internal_id f v →
          v ∈ docFieldVals E1 f) ∧
        (∀ f, ¬ TouchedField found isbr elements E0.internal_id f →
          docFieldVals E1 f = docFieldVals E0 f))
    ∧ (∀ op ∈ allOps (elDeleteElementsCore user store iser isbr elements found map).2,
        ∀ idx id s rc, op = BulkOp.updateOp idx id s rc →
        map.hasKey id = false ∧
        ∃ c ∈ cleanupRelationsOf found isbr elements,
          (c.fromId = some id ∧
            isImpactedTypeAndSide c.entity_type ROLE_FROM = true) ∨
          (c.toId = some id ∧
            isImpactedTypeAndSide c.entity_type ROLE_TO = true)) := by
  refine ⟨?_, ?_, ?_⟩
  · -- (1) no dangling deleted id on survivors
    intro E1 hE1 hsurv T v hv hvdel
    rw [applyEffects_docs] at hE1
    obtain ⟨E0, hE0, hpipe⟩ := List.mem_filterMap.mp hE1
    obtain ⟨hid, hidx, hmono⟩ := docApplyOps_mono _ E0 E1 hpipe
    have hv0 : v ∈ docFieldVals E0 (buildRefRelationKey T) := hmono _ _ hv
    obtain ⟨r, hrw, hrT, hside⟩ := hinv E0 hE0 T v hv0
    have hE0surv : E0.internal_id ∉ deletedIdsOf found elements := by
      rwa [← hid]
    rcases hside with ⟨hrf, hrt, himp⟩ | ⟨hrt, hrf, himp⟩
    · -- E0 is the from endpoint, v = toId is deleted
      have hrrel : r ∈ relationsOf found :=
        hcomplete r hrw (Or.inr (hrt ▸ hvdel))
      have hc : r.toCleanupRel ∈ cleanupRelationsOf found isbr elements :=
        List.mem_append.mpr (Or.inl (List.mem_map_of_mem _ hrrel))
      have hnm : map.hasKey E0.internal_id = false := by
        rcases Bool.eq_false_or_eq_true (map.hasKey E0.internal_id) with h | h
        · exact absurd (List.mem_append.mpr (Or.inl ((hmap _).mp h))) hE0surv
        · exact h
      have hflag : (mkImpact map r.toCleanupRel).isFromCleanup = true := by
        simp only [mkImpact, GraphRelation.toCleanupRel, jsMapHasOpt, hrf]
        rw [Bool.and_eq_true]
        exact ⟨by simp [hnm], by rw [hrT]; exact himp⟩
      have himpacts : mkImpact map r.toCleanupRel ∈
          relsFromToImpacts map (cleanupRelationsOf found isbr elements) :=
        List.mem_filter.mpr ⟨List.mem_map_of_mem _ hc,
          by rw [hflag]; rfl⟩
      have hfind : storeFindIndex user store E0.internal_id = some E0.index :=
        storeFindIndex_of_mem user store E0 huniq hE0 (hvisible E0 hE0)
      have hopmem := core_cleanup_mem user store iser isbr elements found map
        (mkImpact map r.toCleanupRel)
        (BulkOp.updateOp E0.index E0.internal_id
          ⟨buildRefRelationKey (mkImpact map r.toCleanupRel).entity_type,
            (mkImpact map r.toCleanupRel).toId⟩ ES_RETRY_ON_CONFLICT)
        himpacts
        (relFromToOps_from_mem user store _ E0.internal_id E0.index
          (by simp [mkImpact, GraphRelation.toCleanupRel, hrf]) hflag hfind)
      have hkey : (mkImpact map r.toCleanupRel).toId = some v := by
        simp [mkImpact, GraphRelation.toCleanupRel, hrt]
      have hfield : (mkImpact map r.toCleanupRel).entity_type = T := by
        simp [mkImpact, GraphRelation.toCleanupRel, hrT]
      rw [hkey, hfield] at hopmem
      exact docApplyOps_removes _ E0 E1 E0.index E0.internal_id
        (buildRefRelationKey T) v ES_RETRY_ON_CONFLICT hopmem hpipe rfl rfl hv
    · -- E0 is the to endpoint, v = fromId is deleted
      have hrrel : r ∈ relationsOf found :=
        hcomplete r hrw (Or.inl (hrf ▸ hvdel))
      have hc : r.toCleanupRel ∈ cleanupRelationsOf found isbr elements :=
        List.mem_append.mpr (Or.inl (List.mem_map_of_mem _ hrrel))
      have hnm : map.hasKey E0.internal_id = false := by
        rcases Bool.eq_false_or_eq_true (map.hasKey E0.internal_id) with h | h
        · exact absurd (List.mem_append.mpr (Or.inl ((hmap _).mp h))) hE0surv
        · exact h
      have hflag : (mkImpact map r.toCleanupRel).isToCleanup = true := by
        simp only [mkImpact, GraphRelation.toCleanupRel, jsMapHasOpt, hrt]
        rw [Bool.and_eq_true]
        exact ⟨by simp [hnm], by rw [hrT]; exact himp⟩
      have himpacts : mkImpact map r.toCleanupRel ∈
          relsFromToImpacts map (cleanupRelationsOf found isbr elements) :=
        List.mem_filter.mpr ⟨List.mem_map_of_mem _ hc,
          by rw [hflag]; simp⟩
      have hfind : storeFindIndex user store E0.internal_id = some E0.index :=
        storeFindIndex_of_mem user store E0 huniq hE0 (hvisible E0 hE0)
      have hopmem := core_cleanup_mem user store iser isbr elements found map
        (mkImpact map r.toCleanupRel)
        (BulkOp.updateOp E0.index E0.internal_id
          ⟨buildRefRelationKey (mkImpact map r.toCleanupRel).entity_type,
            (mkImpact map r.toCleanupRel).fromId⟩ ES_RETRY_ON_CONFLICT)
        himpacts
        (relFromToOps_to_mem user store _ E0.internal_id E0.index
          (by simp [mkImpact, GraphRelation.toCleanupRel, hrt]) hflag hfind)
      have hkey : (mkImpact map r.toCleanupRel).fromId = some v := by
        simp [mkImpact, GraphRelation.toCleanupRel, hrf]
      have hfield : (mkImpact map r.toCleanupRel).entity_type = T := by
        simp [mkImpact, GraphRelation.toCleanupRel, hrT]
      rw [hkey, hfield] at hopmem
      exact docApplyOps_removes _ E0 E1 E0.index E0.internal_id
        (buildRefRelationKey T) v ES_RETRY_ON_CONFLICT hopmem hpipe rfl rfl hv
  · -- (2) surgical frame on survivors
    intro E0 hE0 hsurv
    have hnodelete : ∀ idx id rc,
        BulkOp.deleteOp idx id rc ∈
          allOps (elDeleteElementsCore user store iser isbr elements found map).2 →
        ¬(E0.internal_id = id ∧ E0.index = idx) := by
      intro idx id rc hmem ⟨hid, _⟩
      rcases core_ops_sound user store iser isbr elements found map _ hmem with
        ⟨idx2, id2, rc2, heq, hdel⟩ | ⟨c, _, idx2, id2, hup⟩
      · cases heq
        exact hsurv (hid ▸ hdel)
      · rcases hup with ⟨_, _, _, _, heq⟩ | ⟨_, _, _, _, heq⟩ <;> cases heq
    obtain ⟨E1, hpipe⟩ := docApplyOps_some_of_no_delete _ E0 hnodelete
    obtain ⟨hid, hidx, hmono⟩ := docApplyOps_mono _ E0 E1 hpipe
    refine ⟨E1, by
      rw [applyEffects_docs]
      exact List.mem_filterMap.mpr ⟨E0, hE0, hpipe⟩, hid, hidx, hmono, ?_, ?_⟩
    · intro f v hv hnorem
      refine docApplyOps_preserves _ E0 E1 f v hpipe ?_ hv
      intro idx id s rc hmem hidm _ hfield hkeyv
      rcases core_ops_sound user store iser isbr elements found map _ hmem with
        ⟨_, _, _, heq, _⟩ | ⟨c, hc, idx2, id2, hup⟩
      · cases heq
      rcases hup with ⟨hcf, _, _, _, heq⟩ | ⟨hct, _, _, _, heq⟩ <;> cases heq
      · exact hnorem ⟨c, hc, hfield.symm, Or.inl ⟨hidm ▸ hcf, hkeyv⟩⟩
      · exact hnorem ⟨c, hc, hfield.symm, Or.inr ⟨hidm ▸ hct, hkeyv⟩⟩
    · intro f hnotouch
      refine docApplyOps_field_eq _ E0 E1 f hpipe ?_
      intro idx id s rc hmem hidm _ hfield
      rcases core_ops_sound user store iser isbr elements found map _ hmem with
        ⟨_, _, _, heq, _⟩ | ⟨c, hc, idx2, id2, hup⟩
      · cases heq
      rcases hup with ⟨hcf, _, _, _, heq⟩ | ⟨hct, _, _, _, heq⟩ <;> cases heq
      · exact hnotouch ⟨c, hc, hfield.symm, Or.inl (hidm ▸ hcf)⟩
      · exact hnotouch ⟨c, hc, hfield.symm, Or.inr (hidm ▸ hct)⟩
  · -- (3) queue condition of every issued update
    intro op hmem idx id s rc heq
    rcases core_ops_sound user store iser isbr elements found map op hmem with
      ⟨_, _, _, heqd, _⟩ | ⟨c, hc, idx2, id2, hup⟩
    · rw [heq] at heqd; cases heqd
    rcases hup with ⟨hcf, hnm, himp, _, hequ⟩ | ⟨hct, hnm, himp, _, hequ⟩
    · rw [heq] at hequ
      cases hequ
      refine ⟨?_, c, hc, Or.inl ⟨hcf, himp⟩⟩
      rw [hcf] at hnm
      simpa [jsMapHasOpt] using hnm
    · rw [heq] at hequ
      cases hequ
      refine ⟨?_, c, hc, Or.inr ⟨hct, himp⟩⟩
      rw [hct] at hnm
      simpa [jsMapHasOpt] using hnm

theorem string_append_left_cancel {s t u : String} (h : s ++ t = s ++ u) :
    t = u := by
  have hd := congrArg String.data h
  rw [String.data_append, String.data_append] at hd
  have h2 := List.append_cancel_left hd
  cases t
  cases u
  simp only [String.data] at h2
  rw [h2]

/-- The concrete deletion scenario: one `uses` relationship from the
surviving entity `f` to the target entity `x`. -/
def rDel : GraphRelation := ⟨"r1", "idx", "uses", "f", "x"⟩

def wEx : World := ⟨[rDel]⟩

def fDocEx : StoreDoc := ⟨"f", "idx", [("rel_uses", ["x"])]⟩

def xDocEx : StoreDoc := ⟨"x", "idx", [("rel_uses", ["f"])]⟩

def storeEx : Store := ⟨[fDocEx, xDocEx]⟩

/-- The deletion batch: the entity `x` alone. -/
def xElem : ElementDoc := ⟨"x", "idx", "Malware", none, none⟩

def iserEx : String → Bool := fun _ => true

def isbrEx : String → Bool := fun _ => false

/-- The visited map the traversal of the scenario produces. -/
def mapEx : JsMap := ⟨[("r1", "")], []⟩

/-- Whether an effect trace contains a cleanup update addressed to an id. -/
def hasUpdateOn (effs : List Effect) (id : String) : Bool :=
  (allOps effs).any (fun op => match op with
    | .updateOp _ i _ _ => i = id
    | _ => false)

/-- Whether an effect trace contains a delete addressed to an id. -/
def hasDeleteOn (effs : List Effect) (id : String) : Bool :=
  (allOps effs).any (fun op => match op with
    | .deleteOp _ i _ => i = id
    | _ => false)

/-- A bypass administrator: sees every stored document. -/
def userAdminEx : User := ⟨[⟨BYPASS⟩], [], []⟩

/-- A user granted TLP green in a universe of TLP green and TLP red:
documents marked red are invisible to it. -/
def user2Ex : User := ⟨[], [⟨"TLP", "green"⟩], [⟨"TLP", "green"⟩, ⟨"TLP", "red"⟩]⟩

/-- The surviving endpoint `f` again, this time carrying the TLP red
marking. -/
def fDocM : StoreDoc :=
  ⟨"f", "idx", [("rel_uses", ["x"]), ("rel_object-marking", ["red"])]⟩

def storeM : Store := ⟨[fDocM, xDocEx]⟩

/-- C5 counterexample: two behaviors of the deletion pipeline contradict
the claim.  First, deleting the entity `x` (endpoint of the impactful
`uses` relationship `r1`) issues a cleanup update addressed to `x` itself —
an endpoint that does not survive the deletion (the same trace deletes it)
— because the code's surviving check consults only the visited relation
map, which never contains original target entities.  Second, when the
surviving endpoint `f` carries a marking the deleting user is not granted,
the endpoint resolution of `elRemoveRelationConnection` (`elFindByIds`,
which applies the user's marking restriction) does not resolve it, the
cleanup update on `f` is skipped, and the surviving document keeps the
deleted id `x` in its `rel_uses` field — a dangling reference. -/
theorem claim_C5_cleanup_counterexample :
    ((elDeleteElements userAdminEx wEx storeEx 2 iserEx isbrEx [xElem]).map
      (fun p => hasUpdateOn p.2 "x" && hasDeleteOn p.2 "x") = some true)
    ∧ ((elDeleteElements user2Ex wEx storeM 2 iserEx isbrEx [xElem]).map
      (fun p => (applyEffects p.2 storeM).docs.any
        (fun d => decide (d.internal_id = "f")
          && (docFieldVals d "rel_uses").contains "x")) = some true) := by
  constructor
  · decide
  · decide

theorem denorm_invariant_ex : DenormInvariant wEx storeEx := by
  have hcase : ∀ (a b : String) (vals : List String) (T v : String),
      v ∈ docFieldVals ⟨a, b, [("rel_uses", vals)]⟩ (buildRefRelationKey T) →
      T = "uses" ∧ v ∈ vals := by
    intro a b vals T v hv
    by_cases hT : ("rel_uses" : String) = buildRefRelationKey T
    · constructor
      · have hch : ("rel_" : String) ++ "uses" = "rel_" ++ T := by
          rw [show ("rel_" : String) ++ "uses" = "rel_uses" from by decide]
          exact hT
        exact (string_append_left_cancel hch).symm
      · simpa [docFieldVals, hT] using hv
    · exfalso
      simp [docFieldVals, hT] at hv
  intro d hd T v hv
  have hdd : d = fDocEx ∨ d = xDocEx := by
    simpa [storeEx] using hd
  rcases hdd with rfl | rfl
  · obtain ⟨hTu, hvv⟩ := hcase _ _ _ T v hv
    subst hTu
    have hvx : v = "x" := by simpa using hvv
    subst hvx
    exact ⟨rDel, by simp [wEx], rfl, Or.inl ⟨rfl, rfl, by decide⟩⟩
  · obtain ⟨hTu, hvv⟩ := hcase _ _ _ T v hv
    subst hTu
    have hvf : v = "f" := by simpa using hvv
    subst hvf
    exact ⟨rDel, by simp [wEx], rfl, Or.inr ⟨rfl, rfl, by decide⟩⟩

/-- C5 witness: the frame theorem applied to the concrete scenario (entity
`x` deleted by a bypass administrator, `uses` relationship `r1` discovered,
survivor `f`). -/
theorem claim_C5_cleanup_frame_witness :
    (∀ E1 ∈ (applyEffects
        (elDeleteElementsCore userAdminEx storeEx iserEx isbrEx
          [xElem] [(rDel, 0)] mapEx).2 storeEx).docs,
      E1.internal_id ∉ deletedIdsOf [(rDel, 0)] [xElem] →
      ∀ T v, v ∈ docFieldVals E1 (buildRefRelationKey T) →
        v ∉ deletedIdsOf [(rDel, 0)] [xElem])
    ∧ (∀ E0 ∈ storeEx.docs, E0.internal_id ∉ deletedIdsOf [(rDel, 0)] [xElem] →
      ∃ E1 ∈ (applyEffects
          (elDeleteElementsCore userAdminEx storeEx iserEx isbrEx
            [xElem] [(rDel, 0)] mapEx).2 storeEx).docs,
        E1.internal_id = E0.internal_id ∧ E1.index = E0.index ∧
        (∀ f v, v ∈ docFieldVals E1 f → v ∈ docFieldVals E0 f) ∧
        (∀ f v, v ∈ docFieldVals E0 f →
          ¬ RemovedRef [(rDel, 0)] isbrEx [xElem] E0.internal_id f v →
          v ∈ docFieldVals E1 f) ∧
        (∀ f, ¬ TouchedField [(rDel, 0)] isbrEx [xElem] E0.internal_id f →
          docFieldVals E1 f = docFieldVals E0 f))
    ∧ (∀ op ∈ allOps
          (elDeleteElementsCore userAdminEx storeEx iserEx isbrEx
            [xElem] [(rDel, 0)] mapEx).2,
        ∀ idx id s rc, op = BulkOp.updateOp idx id s rc →
        mapEx.hasKey id = false ∧
        ∃ c ∈ cleanupRelationsOf [(rDel, 0)] isbrEx [xElem],
          (c.fromId = some id ∧
            isImpactedTypeAndSide c.entity_type ROLE_FROM = true) ∨
          (c.toId = some id ∧
            isImpactedTypeAndSide c.entity_type ROLE_TO = true)) :=
  claim_C5_cleanup_frame userAdminEx wEx storeEx iserEx isbrEx
    [xElem] [(rDel, 0)] mapEx
    (by decide)
    (by decide)
    (by
      intro id
      simp [mapEx, JsMap.hasKey, relationsOf, rDel, eq_comm])
    (by decide)
    denorm_invariant_ex

end OpenCTI
